import Mathlib

/-!
Shallow embedding of the American Mahjong assistant's pattern-expansion and
hand-scoring core:

* `src/scripts/generate-complete-hands.py` (constraint resolution, suit / value
  assignment expansion, playable-hand enumeration with a combinatorial ceiling);
* `src/packages/frontend/public/intelligence/nmjl-patterns/scorer.py`
  (greedy multiset scoring and best-pattern ranking).

Python strings are embedded as Lean `String`s (helpers below mirror
`str.isdigit`, `str.split`, `str.strip`, `int(...)`); Python dicts are embedded
as association lists with insertion-order update semantics; `collections.Counter`
objects are association lists from tiles to counts.  A concrete tile identifier
is either a (value, suit-letter) number tile — written `"2D"` by the generator
and `(2, 'D')` by the scorer, identified here as `Tile.num 2 'D'` following the
data model's single notion of concrete tile identifier — or one of the string
identifiers (winds, dragons, flowers, joker, suit-pending bare digits, and the
`UNKNOWN...` sentinels), embedded as `Tile.sym`.
-/

namespace AMJ

/-- Python-level JSON scalar for the `Constraint_Values` field, which the
source treats as possibly a string, an integer (e.g. `2025`), or missing. -/
inductive PyVal where
  | pstr (s : String)
  | pint (n : Nat)
  | pnone
deriving DecidableEq

/-- `str(...)` on a `Constraint_Values` scalar. -/
def PyVal.toStr : PyVal → String
  | .pstr s => s
  | .pint n => toString n
  | .pnone => "None"

/-- A concrete tile identifier (see the header comment). -/
inductive Tile where
  | num (v : Int) (suit : Char)
  | sym (s : String)
deriving DecidableEq

/-! ### Python string helpers -/

/-- `pat` occurs at the head of `l` (the character-list core of
`str.startswith`). -/
def leadsWith : List Char → List Char → Bool
  | [], _ => true
  | _ :: _, [] => false
  | a :: as_, b :: bs => a == b && leadsWith as_ bs

/-- `pat` occurs somewhere inside `l` (the character-list core of Python's
`pat in s` substring test). -/
def hasSubChars (pat : List Char) : List Char → Bool
  | [] => leadsWith pat []
  | c :: t => leadsWith pat (c :: t) || hasSubChars pat t

/-- `s.split(c)` on character lists: split at every occurrence of `c`,
keeping empty pieces, like Python `str.split` with an explicit separator. -/
def splitOnChar (c : Char) : List Char → List (List Char)
  | [] => [[]]
  | x :: xs =>
    let r := splitOnChar c xs
    if x = c then [] :: r
    else
      match r with
      | [] => [[x]]
      | h :: t => (x :: h) :: t

/-- Python `s.split(sep)` for a one-character separator. -/
def pySplit (s : String) (c : Char) : List String :=
  (splitOnChar c s.data).map fun l => ⟨l⟩

/-- Python `s.strip()`. -/
def pyStrip (s : String) : String :=
  ⟨((((s.data.dropWhile Char.isWhitespace).reverse).dropWhile
      Char.isWhitespace).reverse)⟩

/-- Python `s.isdigit()` (nonempty, all decimal digits). -/
def pyIsDigit (s : String) : Bool :=
  !s.data.isEmpty && s.data.all Char.isDigit

/-- Numeric value of a decimal digit string. -/
def digitsToNat (l : List Char) : Nat :=
  l.foldl (fun a c => a * 10 + (c.toNat - 48)) 0

/-- `int(s)` for an `isdigit` string. -/
def pyStrToNat (s : String) : Nat := digitsToNat s.data

/-- Python `int(s)` on an arbitrary string: strip whitespace, optional sign,
then a nonempty digit run; `none` models the raised `ValueError`. -/
def pyInt? (s : String) : Option Int :=
  let t := ((s.data.dropWhile Char.isWhitespace).reverse.dropWhile
      Char.isWhitespace).reverse
  match t with
  | '-' :: rest =>
    if !rest.isEmpty && rest.all Char.isDigit then some (-(digitsToNat rest : Int)) else none
  | '+' :: rest =>
    if !rest.isEmpty && rest.all Char.isDigit then some (digitsToNat rest : Int) else none
  | rest =>
    if !rest.isEmpty && rest.all Char.isDigit then some (digitsToNat rest : Int) else none

/-! ### Python dict / Counter embedding -/

/-- Python dict lookup `d.get(k)` / `k in d`. -/
def alGet? {α β : Type} [DecidableEq α] : List (α × β) → α → Option β
  | [], _ => none
  | (k', v) :: rest, k => if k' = k then some v else alGet? rest k

/-- Python dict store `d[k] = v`: update in place keeping insertion order,
append if absent. -/
def alSet {α β : Type} [DecidableEq α] : List (α × β) → α → β → List (α × β)
  | [], k, v => [(k, v)]
  | (k', v') :: rest, k, v =>
    if k' = k then (k', v) :: rest else (k', v') :: alSet rest k v

/-- A `collections.Counter` over tiles. -/
abbrev HandMap := List (Tile × Nat)

/-- `counter.get(t, 0)`. -/
def handGet (m : HandMap) (t : Tile) : Nat := (alGet? m t).getD 0

/-- `counter[t] += 1` (used by `Counter(list)` construction). -/
def dictIncr : HandMap → Tile → HandMap
  | [], t => [(t, 1)]
  | (k, v) :: rest, t =>
    if k = t then (k, v + 1) :: rest else (k, v) :: dictIncr rest t

/-- `counter[t] -= n`; in the scorer this is only reached when
`counter.get(t, 0) ≥ n > 0`, so the key is present. -/
def dictSub : HandMap → Tile → Nat → HandMap
  | [], _, _ => []
  | (k, v) :: rest, t, n =>
    if k = t then (k, v - n) :: rest else (k, v) :: dictSub rest t n

/-- `Counter(tiles)`. -/
def toCounter (l : List Tile) : HandMap := l.foldl dictIncr []

/-! ### Fixed vocabularies (generate-complete-hands.py lines 14-24) -/

def SUITS : List (String × Char) := [("dots", 'D'), ("bams", 'B'), ("cracks", 'C')]

def WINDS : List String := ["east", "south", "west", "north"]

def DRAGONS : List String := ["red", "green", "white"]

def FLOWERS : List String := ["f1", "f2", "f3", "f4"]

/-- `SUITS.get(name, 'D')`. -/
def suitLetterOf (name : String) : Char := (alGet? SUITS name).getD 'D'

/-- The four flower tiles, as tile identifiers. -/
def flowerTiles : List Tile := FLOWERS.map Tile.sym

/-- The `"UNKNOWN"` sentinel marker substring test applied to a tile
(`"UNKNOWN" in str(tile)`). -/
def tileHasUnknown : Tile → Bool
  | .num _ _ => false
  | .sym s => hasSubChars "UNKNOWN".data s.data

/-! ### Data model (template records, §6 input record shape) -/

/-- One sub-shape of a template.  The `gname` field embeds the record's
`Group` key (its group identifier). -/
structure Group where
  gname : String
  Constraint_Type : String
  Constraint_Values : PyVal
  Suit_Role : String
  Jokers_Allowed : Bool
  Constraint_Must_Match : Option String
deriving DecidableEq

/-- One pattern template record.  `Pattern_ID` embeds the `Pattern ID` key. -/
structure Pattern where
  Section : String
  Line : Nat
  Pattern_ID : Nat
  Hands_Key : String
  Hand_Pattern : String
  Hand_Description : String
  Hand_Points : Nat
  Hand_Difficulty : String
  Hand_Conceiled : Bool
  Groups : List Group
deriving DecidableEq

/-! ### ConstraintValueResolver
(`expand_constraint_values_with_assignment`, generate-complete-hands.py
lines 403-460) -/

/-- Map one already-split literal to a tile, given the optional assigned suit
name (the per-value loop of the resolver; `suitTruthy` is Python truthiness of
the `suit_assignment` argument). -/
def suitTruthy : Option String → Bool
  | some s => s ≠ ""
  | none => false

/-- The per-literal mapping loop (`for value in values: ...`). -/
def mapLiteralsToTiles (values : List String) (sa? : Option String) : List Tile :=
  values.map fun value =>
    if value = "0" then .sym "white"
    else if value ∈ WINDS then .sym value
    else if value ∈ DRAGONS then .sym value
    else if pyIsDigit value && suitTruthy sa? then
      .num (pyStrToNat value) (suitLetterOf (sa?.getD ""))
    else if pyIsDigit value then .sym value
    else .sym ("UNKNOWN:" ++ value)

/-- `expand_constraint_values_with_assignment(constraint_values,
suit_assignment, value_assignment)`. -/
def expand_constraint_values_with_assignment (cv : PyVal) (sa? : Option String)
    (va : List (String × String)) : List Tile :=
  match cv with
  | .pnone => []
  | _ =>
    let cs := cv.toStr
    if cs = "flower" then flowerTiles
    else if cs = "wind" ∨ cs = "winds" then WINDS.map .sym
    else if cs = "dragon" ∨ cs = "dragons" then DRAGONS.map .sym
    else if cs = "" ∨ cs = "any" then []
    else
      let cs := match alGet? va cs with
        | some v => v
        | none => cs
      let values :=
        if pyIsDigit cs && decide (1 < cs.data.length) then
          cs.data.map fun c => String.mk [c]
        else if cs.data.contains ',' then (pySplit cs ',').map pyStrip
        else [cs]
      mapLiteralsToTiles values sa?

/-! ### Per-group tile synthesis (`generate_exact_tiles_for_group`,
generate-complete-hands.py lines 150-213) -/

/-- `len(exact_tiles) > 0 and not any("UNKNOWN" in str(tile) for tile in
exact_tiles)`. -/
def groupSuccess (tiles : List Tile) : Bool :=
  !tiles.isEmpty && tiles.all fun t => !tileHasUnknown t

/-- `generate_exact_tiles_for_group(group, suit_assignment, value_assignment)`:
returns the group's exact tile list and its success flag. -/
def generate_exact_tiles_for_group (g : Group) (sa : List (String × String))
    (va : List (String × String)) : List Tile × Bool :=
  let assigned := alGet? sa g.gname
  let ct := g.Constraint_Type
  let cv := g.Constraint_Values
  if ct = "single" then
    let base := expand_constraint_values_with_assignment cv assigned va
    let ex := if !base.isEmpty then base.take 1 else [.sym "UNKNOWN_SINGLE"]
    (ex, groupSuccess ex)
  else if ct = "pair" then
    let base := expand_constraint_values_with_assignment cv assigned va
    let ex := match base with
      | b :: _ => List.replicate 2 b
      | [] => List.replicate 2 (.sym "UNKNOWN_PAIR")
    (ex, groupSuccess ex)
  else if ct = "pung" then
    let base := expand_constraint_values_with_assignment cv assigned va
    let ex := match base with
      | b :: _ => List.replicate 3 b
      | [] => List.replicate 3 (.sym "UNKNOWN_PUNG")
    (ex, groupSuccess ex)
  else if ct = "kong" then
    if cv = .pstr "flower" then (flowerTiles, groupSuccess flowerTiles)
    else
      let base := expand_constraint_values_with_assignment cv assigned va
      let ex := match base with
        | b :: _ => List.replicate 4 b
        | [] => List.replicate 4 (.sym "UNKNOWN_KONG")
      (ex, groupSuccess ex)
  else if ct = "quint" then
    let base := expand_constraint_values_with_assignment cv assigned va
    let ex := match base with
      | b :: _ => List.replicate 5 b
      | [] => List.replicate 5 (.sym "UNKNOWN_QUINT")
    (ex, groupSuccess ex)
  else if ct = "sequence" then
    let ex := expand_constraint_values_with_assignment cv assigned va
    (ex, groupSuccess ex)
  else ([.sym ("UNKNOWN_CONSTRAINT:" ++ ct)], false)

/-! ### PlayableHand assembly (`generate_complete_hand_with_assignments`,
generate-complete-hands.py lines 215-279) -/

/-- One entry of the `joker_rules.groups` list. -/
structure JokerRule where
  group_name : String
  jokers_allowed : Bool
  tiles : List Tile
deriving DecidableEq

/-- The `pattern_info` sub-record (`psection` embeds its `section` key). -/
structure PatternInfo where
  psection : String
  line : Nat
  pattern_id : Nat
  pattern_key : String
  display_pattern : String
  description : String
  points : Nat
  difficulty : String
  concealed : Bool
deriving DecidableEq

/-- One generated playable-hand record (the dictionary built at
generate-complete-hands.py lines 246-279). -/
structure CompleteHand where
  hand_id : String
  pattern_info : PatternInfo
  required_tiles : List Tile
  tile_counts : HandMap
  total_tiles : Nat
  jr_groups : List JokerRule
  total_joker_substitutable_tiles : Nat
  singles_and_pairs_restriction : Bool
  suit_assignments : List (String × String)
  value_assignments : List (String × String)
  generation_success : Bool
  generation_notes : String
deriving DecidableEq

/-- The per-group accumulation loop of
`generate_complete_hand_with_assignments` (tiles, joker rules, success). -/
def accumulateGroups (groups : List Group) (sa va : List (String × String)) :
    List Tile × List JokerRule × Bool :=
  groups.foldl
    (fun acc g =>
      let r := generate_exact_tiles_for_group g sa va
      (acc.1 ++ r.1,
       acc.2.1 ++ [⟨g.gname, g.Jokers_Allowed, r.1⟩],
       acc.2.2 && r.2))
    ([], [], true)

/-- `generate_complete_hand_with_assignments(pattern, suit_assignment,
value_assignment)`. -/
def generate_complete_hand_with_assignments (p : Pattern)
    (sa va : List (String × String)) : CompleteHand :=
  let acc := accumulateGroups p.Groups sa va
  let all_tiles := acc.1
  let joker_rules := acc.2.1
  let success := acc.2.2
  let tile_counts := toCounter all_tiles
  let base_id := p.Hands_Key
  let suit_suffix :=
    if sa ≠ [] then String.intercalate "-" (sa.map (·.2)) else "nosuits"
  let value_suffix :=
    String.intercalate "-" (va.map fun e => e.1 ++ ":" ++ e.2)
  let hand_id := base_id ++ "-" ++ suit_suffix ++
    (if value_suffix ≠ "" then "-" ++ value_suffix else "")
  { hand_id := hand_id
    pattern_info :=
      { psection := p.Section
        line := p.Line
        pattern_id := p.Pattern_ID
        pattern_key := p.Hands_Key
        display_pattern := p.Hand_Pattern
        description := p.Hand_Description
        points := p.Hand_Points
        difficulty := p.Hand_Difficulty
        concealed := p.Hand_Conceiled }
    required_tiles := all_tiles
    tile_counts := tile_counts
    total_tiles := all_tiles.length
    jr_groups := joker_rules
    total_joker_substitutable_tiles :=
      (joker_rules.filter fun jr =>
          jr.jokers_allowed && (jr.tiles.all fun t => !tileHasUnknown t)).foldl
        (fun s jr => s + jr.tiles.length) 0
    singles_and_pairs_restriction :=
      p.Groups.any fun g =>
        (g.Constraint_Type == "pair" || g.Constraint_Type == "single") &&
          !g.Jokers_Allowed
    suit_assignments := sa
    value_assignments := va
    generation_success := success
    generation_notes :=
      if !success then "Manual review needed" else "Generated automatically" }

/-! ### SuitAssignmentExpander (`generate_suit_combinations`,
generate-complete-hands.py lines 96-148) -/

/-- `role.startswith('same_as:')`. -/
def startsSameAs (role : String) : Bool :=
  leadsWith "same_as:".data role.data

/-- `role.split(':')[1]`. -/
def sameAsRef (role : String) : String := ((pySplit role ':').drop 1).headD ""

/-- The three primary suit roles. -/
def primaryRoleNames : List String := ["any", "second", "third"]

/-- The `suit_roles` dict: group name to suit role, for primary and
`same_as:` roles. -/
def suitRolesDict (groups : List Group) : List (String × String) :=
  groups.foldl
    (fun d g =>
      let role := g.Suit_Role
      if role ∈ primaryRoleNames then alSet d g.gname role
      else if startsSameAs role then alSet d g.gname role
      else d)
    []

/-- `sorted(unique_roles)` where
`unique_roles = set(r for r in suit_roles.values() if r in primaryRoleNames)`:
the set of primary roles present, in ascending string order
(`"any" < "second" < "third"`). -/
def sortedUniqueRoles (d : List (String × String)) : List String :=
  primaryRoleNames.filter fun r => r ∈ d.map (·.2)

/-- `itertools.permutations(l, k)` for a duplicate-free pool: all `k`-length
ordered selections of distinct elements. -/
def permsTake : List String → Nat → List (List String)
  | _, 0 => [[]]
  | l, k + 1 => l.flatMap fun x => (permsTake (l.erase x) k).map (x :: ·)

/-- One iteration of the assignment-building loop of
`generate_suit_combinations`: `nr` is one `(group name, role)` item of the
`suit_roles` dict and `rts` the `role_to_suit` dict of one permutation. -/
def assignStep (rts : List (String × String)) (a : List (String × String))
    (nr : String × String) : List (String × String) :=
  match alGet? rts nr.2 with
  | some s => alSet a nr.1 s
  | none =>
    if startsSameAs nr.2 then
      match alGet? a (sameAsRef nr.2) with
      | some s => alSet a nr.1 s
      | none => alSet a nr.1 "UNRESOLVED_REFERENCE"
    else a

/-- Build one assignment dict from the `suit_roles` dict and the
`role_to_suit` dict of one permutation (the inner loop of
`generate_suit_combinations`). -/
def buildAssignment (d : List (String × String))
    (rts : List (String × String)) : List (String × String) :=
  d.foldl (assignStep rts) []

/-- `generate_suit_combinations(groups)`. -/
def generate_suit_combinations (groups : List Group) :
    List (List (String × String)) :=
  let d := suitRolesDict groups
  if d = [] then [[]]
  else
    let roles := sortedUniqueRoles d
    let k := roles.length
    if k = 0 then [[]]
    else if 3 < k then
      [[("ERROR", "Too many suits needed: " ++ toString k)]]
    else
      (permsTake (SUITS.map (·.1)) k).map fun combo =>
        buildAssignment d (roles.zip combo)

/-! ### ValueAssignmentExpander (`generate_constraint_value_combinations`,
generate-complete-hands.py lines 343-384) -/

/-- The `multi_value_groups` scan: group name paired with its list of
comma-separated literals, for groups whose string `Constraint_Values`
contains a comma and splits into more than one literal. -/
def multiValueGroups (groups : List Group) : List (String × List String) :=
  groups.foldl
    (fun acc g =>
      match g.Constraint_Values with
      | .pstr s =>
        if s.data.contains ',' then
          let values := (pySplit s ',').map pyStrip
          if 1 < values.length then acc ++ [(g.gname, values)] else acc
        else acc
      | _ => acc)
    []

/-- `itertools.product(*options)`: Cartesian product in rightmost-varies-
fastest order. -/
def listProd : List (List String) → List (List String)
  | [] => [[]]
  | l :: ls => l.flatMap fun x => (listProd ls).map (x :: ·)

/-- `generate_constraint_value_combinations(pattern)`. -/
def generate_constraint_value_combinations (p : Pattern) :
    List (List (String × String)) :=
  let mv := multiValueGroups p.Groups
  if mv = [] then [[]]
  else
    (listProd (mv.map (·.2))).map fun combo =>
      ((mv.map (·.1)).zip combo).foldl (fun a nv => alSet a nv.1 nv.2) []

/-! ### PlayableHandEnumerator (`generate_all_complete_hands`,
generate-complete-hands.py lines 462-496) -/

/-- The per-pattern body of the `generate_all_complete_hands` loop: skip the
pattern when value-combination count times suit-combination count exceeds
100, otherwise emit one hand per (value assignment, suit assignment) pair. -/
def handsForPattern (p : Pattern) : List CompleteHand :=
  let vcs := generate_constraint_value_combinations p
  let scs := generate_suit_combinations p.Groups
  if 100 < vcs.length * scs.length then []
  else
    vcs.flatMap fun va =>
      scs.map fun sa => generate_complete_hand_with_assignments p sa va

/-- `generate_all_complete_hands(patterns)`. -/
def generate_all_complete_hands (ps : List Pattern) : List CompleteHand :=
  ps.flatMap handsForPattern

/-! ### HandScorer (`score_hand_for_pattern`, scorer.py lines 13-93)

The observed hand is threaded explicitly through the group loop as a
separate `caller` component alongside the working copy `temp`, so that the
"tile consumption happens only on the internal copy" frame property is a
statement about the embedding rather than an artifact of it. -/

/-- The sort-key weight table of the group ordering (scorer.py lines 29-35). -/
def typeWeight (ct : String) : Nat :=
  if ct = "quint" then 5
  else if ct = "kong" then 4
  else if ct = "pung" then 3
  else if ct = "sequence" then 3
  else if ct = "pair" then 2
  else if ct = "single" then 1
  else 0

/-- Stable insertion of a group into a weight-descending sorted list: the
inserted (originally earlier) group goes before any group of equal weight. -/
def insertDesc (g : Group) : List Group → List Group
  | [] => [g]
  | h :: t =>
    if typeWeight h.Constraint_Type ≤ typeWeight g.Constraint_Type then
      g :: h :: t
    else h :: insertDesc g t

/-- `sorted(groups, key=weight, reverse=True)`: stable descending sort by the
weight table (Python's sort is stable and `reverse=True` keeps the original
order of equal-weight elements). -/
def sortGroupsDesc (l : List Group) : List Group := l.foldr insertDesc []

/-- `{'pung': 3, 'kong': 4, 'pair': 2}[constraint_type]` (only reached with
one of those three types). -/
def needOf (ct : String) : Nat :=
  if ct = "pung" then 3 else if ct = "kong" then 4 else if ct = "pair" then 2
  else 0

/-- The fixed suit order `['D', 'C', 'B']` tried by the scorer. -/
def scorerSuits : List Char := ['D', 'C', 'B']

/-- The `for suit in ['D', 'C', 'B']` loop of the pung/kong/pair branch:
consume `needed` copies of the (value, suit) tile at the first suit holding
at least `needed`, stopping there; otherwise leave the state unchanged. -/
def consumeFirstSuit (temp : HandMap) (score : Nat) (v : Int) (needed : Nat) :
    List Char → HandMap × Nat
  | [] => (temp, score)
  | s :: rest =>
    let t := Tile.num v s
    if needed ≤ handGet temp t then (dictSub temp t needed, score + needed)
    else consumeFirstSuit temp score v needed rest

/-- `all(run[i][0] + 1 == run[i+1][0] for i in ...)` over the run's values. -/
def consecValues : List Int → Bool
  | [] => true
  | [_] => true
  | a :: b :: t => (a + 1 == b) && consecValues (b :: t)

/-- The `for suit in ['D', 'C', 'B']` loop of the sequence branch: at the
first suit where every tile of the run `values[0] + i` is present with a
positive count (and the constructed run is consecutive), add the run length
and consume one of each tile, stopping there. -/
def seqTrySuits (temp : HandMap) (score : Nat) (values : List Int) :
    List Char → HandMap × Nat
  | [] => (temp, score)
  | s :: rest =>
    let start := values.headD 0
    let runValues := (List.range values.length).map fun i => start + (i : Int)
    let runTiles := runValues.map fun v => Tile.num v s
    if runTiles.all (fun t => 0 < handGet temp t) then
      if consecValues runValues then
        (runTiles.foldl (fun m t => dictSub m t 1) temp,
         score + runTiles.length)
      else seqTrySuits temp score values rest
    else seqTrySuits temp score values rest

/-- One iteration of `for group in groups_to_process` (scorer.py lines
37-91), acting on (caller's counter, working copy, running score). -/
def scoreGroupStep (st : HandMap × HandMap × Nat) (g : Group) :
    HandMap × HandMap × Nat :=
  let caller := st.1
  let temp := st.2.1
  let score := st.2.2
  let ct := g.Constraint_Type
  let cv := g.Constraint_Values
  if ct = "pung" ∨ ct = "kong" ∨ ct = "pair" then
    let needed := needOf ct
    match cv with
    | .pstr s =>
      if pyIsDigit s then
        let r := consumeFirstSuit temp score (pyStrToNat s : Int) needed
          scorerSuits
        (caller, r.1, r.2)
      else (caller, temp, score)
    | _ => (caller, temp, score)
  else if ct = "sequence" then
    match ((pySplit cv.toStr ',').mapM pyInt?) with
    | none => (caller, temp, score)
    | some values =>
      let r := seqTrySuits temp score values scorerSuits
      (caller, r.1, r.2)
  else (caller, temp, score)

/-- `score_hand_for_pattern(hand_counts, pattern)`: returns the computed
score together with the caller's counter as it stands after the call. -/
def score_hand_for_pattern (hand_counts : HandMap) (p : Pattern) :
    Nat × HandMap :=
  let temp := hand_counts
  if p.Section = "ALL PAIRS" then
    ((temp.foldl (fun acc e => acc + e.2 / 2) 0) * 2, hand_counts)
  else
    let st := (sortGroupsDesc p.Groups).foldl scoreGroupStep
      (hand_counts, temp, 0)
    (st.2.2, st.1)

/-- The score alone. -/
def scoreOf (hand_counts : HandMap) (p : Pattern) : Nat :=
  (score_hand_for_pattern hand_counts p).1

/-! ### Ranking (`find_best_pattern`, scorer.py lines 96-123) -/

/-- One entry of the `best_patterns` list. -/
structure BestEntry where
  score : Nat
  unique_id : String
  description : String
deriving DecidableEq

/-- `{'score': ..., 'unique_id': f"{Section}-{Line} ({Hand_Pattern})",
'description': ...}`. -/
def mkEntry (score : Nat) (p : Pattern) : BestEntry :=
  { score := score
    unique_id := p.Section ++ "-" ++ toString p.Line ++ " (" ++
      p.Hand_Pattern ++ ")"
    description := p.Hand_Description }

/-- One iteration of the `for pattern in patterns` ranking loop. -/
def rankStep (hand_counts : HandMap) (acc : List BestEntry × Int)
    (p : Pattern) : List BestEntry × Int :=
  let score := scoreOf hand_counts p
  if (score : Int) > acc.2 then ([mkEntry score p], (score : Int))
  else if (score : Int) = acc.2 ∧ 0 < score then
    (acc.1 ++ [mkEntry score p], acc.2)
  else acc

/-- `find_best_pattern(hand_counts, patterns)` over the already-parsed
pattern list: returns `(best_patterns, highest_score)`. -/
def find_best_pattern (hand_counts : HandMap) (patterns : List Pattern) :
    List BestEntry × Int :=
  patterns.foldl (rankStep hand_counts) ([], -1)

/-! ## Helper lemmas -/

theorem alGet?_alSet_self {α β : Type} [DecidableEq α] (d : List (α × β))
    (k : α) (v : β) : alGet? (alSet d k v) k = some v := by
  induction d with
  | nil => simp [alSet, alGet?]
  | cons e rest ih =>
    by_cases h : e.1 = k
    · simp [alSet, alGet?, h]
    · simp [alSet, alGet?, h, ih]

theorem alGet?_alSet_ne {α β : Type} [DecidableEq α] (d : List (α × β))
    (k k' : α) (v : β) (h : k ≠ k') :
    alGet? (alSet d k v) k' = alGet? d k' := by
  induction d with
  | nil => simp [alSet, alGet?, h]
  | cons e rest ih =>
    by_cases he : e.1 = k
    · simp [alSet, alGet?, he, h]
    · simp [alSet, alGet?, he, ih]

theorem alGet?_mem {α β : Type} [DecidableEq α] (d : List (α × β))
    (k : α) (v : β) (h : alGet? d k = some v) : (k, v) ∈ d := by
  induction d with
  | nil => simp [alGet?] at h
  | cons e rest ih =>
    obtain ⟨a, b⟩ := e
    by_cases he : a = k
    · simp [alGet?, he] at h
      subst he
      subst h
      exact .head _
    · simp [alGet?, he] at h
      exact .tail _ (ih h)

theorem handGet_dictSub (m : HandMap) (t t' : Tile) (n : Nat) :
    handGet (dictSub m t n) t' =
      if t' = t then handGet m t - n else handGet m t' := by
  induction m with
  | nil =>
    by_cases h : t' = t <;> simp [dictSub, handGet, alGet?, h]
  | cons e rest ih =>
    obtain ⟨a, b⟩ := e
    by_cases he : a = t
    · subst he
      by_cases h : t' = a
      · subst h
        simp [dictSub, handGet, alGet?]
      · have h2 : ¬ a = t' := fun hc => h hc.symm
        simp [dictSub, handGet, alGet?, h, h2]
    · by_cases h' : a = t'
      · subst h'
        simp [dictSub, handGet, alGet?, he]
      · simp [dictSub, handGet, alGet?, he, h'] at ih ⊢
        exact ih

theorem handGet_dictIncr (m : HandMap) (t t' : Tile) :
    handGet (dictIncr m t) t' =
      handGet m t' + if t' = t then 1 else 0 := by
  induction m with
  | nil =>
    by_cases h : t' = t
    · subst h
      simp [dictIncr, handGet, alGet?]
    · have h2 : ¬ t = t' := fun hc => h hc.symm
      simp [dictIncr, handGet, alGet?, h, h2]
  | cons e rest ih =>
    obtain ⟨a, b⟩ := e
    by_cases he : a = t
    · subst he
      by_cases h : t' = a
      · subst h
        simp [dictIncr, handGet, alGet?]
      · have h2 : ¬ a = t' := fun hc => h hc.symm
        simp [dictIncr, handGet, alGet?, h, h2]
    · by_cases h' : a = t'
      · subst h'
        simp [dictIncr, handGet, alGet?, he]
      · simp [dictIncr, handGet, alGet?, he, h'] at ih ⊢
        exact ih

theorem handGet_foldl_dictIncr (l : List Tile) (m : HandMap) (t : Tile) :
    handGet (l.foldl dictIncr m) t = handGet m t + l.count t := by
  induction l generalizing m with
  | nil => simp
  | cons a l ih =>
    rw [List.foldl_cons, ih, handGet_dictIncr]
    by_cases h : t = a
    · rw [if_pos h]
      have hc : (a :: l).count t = l.count t + 1 := by
        simp [List.count_cons, h]
      rw [hc]
      omega
    · rw [if_neg h]
      have hc : (a :: l).count t = l.count t := by
        simp [List.count_cons, h]
      rw [hc]
      omega

/-- `counter.get(t, 0)` of `Counter(tiles)` is the number of occurrences of
`t` in `tiles`. -/
theorem handGet_toCounter (l : List Tile) (t : Tile) :
    handGet (toCounter l) t = l.count t := by
  unfold toCounter
  rw [handGet_foldl_dictIncr]
  simp [handGet, alGet?]

/-- The suit loop of the pung/kong/pair branch equals a first-match search
over the suit list. -/
theorem consumeFirstSuit_eq_find (suits : List Char) (temp : HandMap)
    (score : Nat) (v : Int) (needed : Nat) :
    consumeFirstSuit temp score v needed suits =
      match suits.find? (fun s => decide (needed ≤ handGet temp (Tile.num v s))) with
      | some s => (dictSub temp (Tile.num v s) needed, score + needed)
      | none => (temp, score) := by
  induction suits with
  | nil => simp [consumeFirstSuit, List.find?]
  | cons s rest ih =>
    by_cases h : needed ≤ handGet temp (Tile.num v s)
    · simp [consumeFirstSuit, List.find?, h]
    · simp [consumeFirstSuit, List.find?, h, ih]

/-! ## C7 — combinatorial ceiling policy -/

theorem handsForPattern_flatMap_length (p : Pattern)
    (vcs scs : List (List (String × String))) :
    (vcs.flatMap fun va =>
        scs.map fun sa => generate_complete_hand_with_assignments p sa va).length =
      vcs.length * scs.length := by
  induction vcs with
  | nil => simp
  | cons va rest ih =>
    simp [List.flatMap_cons, ih, Nat.succ_mul, Nat.add_comm]

/-- C7: a pattern whose value-combination count times suit-combination count
exceeds the ceiling of 100 yields zero hands (skipped entirely); otherwise
exactly that product of hands is emitted, one per (value assignment, suit
assignment) pair. -/
theorem claim7_ceiling (p : Pattern) :
    (handsForPattern p).length =
      (if 100 < (generate_constraint_value_combinations p).length *
          (generate_suit_combinations p.Groups).length then 0
       else (generate_constraint_value_combinations p).length *
          (generate_suit_combinations p.Groups).length) ∧
    generate_all_complete_hands [p] = handsForPattern p := by
  have hEq : handsForPattern p =
      if 100 < (generate_constraint_value_combinations p).length *
          (generate_suit_combinations p.Groups).length then []
      else (generate_constraint_value_combinations p).flatMap fun va =>
        (generate_suit_combinations p.Groups).map fun sa =>
          generate_complete_hand_with_assignments p sa va := rfl
  constructor
  · rw [hEq]
    by_cases h : 100 < (generate_constraint_value_combinations p).length *
        (generate_suit_combinations p.Groups).length
    · rw [if_pos h, if_pos h]
      rfl
    · rw [if_neg h, if_neg h]
      exact handsForPattern_flatMap_length p _ _
  · simp [generate_all_complete_hands]

/-! ## C8 — "ALL PAIRS" scoring -/

theorem foldl_halves (l : HandMap) (n : Nat) :
    l.foldl (fun acc e => acc + e.2 / 2) n =
      n + (l.map fun e => e.2 / 2).sum := by
  induction l generalizing n with
  | nil => simp
  | cons e rest ih => simp [ih, Nat.add_assoc]

/-- C8: scoring against a template in the `ALL PAIRS` section returns twice
the sum over tiles of `count / 2` (twice the number of complete same-tile
pairs across the whole observed multiset). -/
theorem claim8_all_pairs (h : HandMap) (p : Pattern)
    (hs : p.Section = "ALL PAIRS") :
    scoreOf h p = 2 * (h.map fun e => e.2 / 2).sum := by
  unfold scoreOf score_hand_for_pattern
  simp [hs, foldl_halves, Nat.mul_comm]

/-- A hand of 7 distinct pairs. -/
def sevenPairHand : HandMap :=
  [(.num 1 'D', 2), (.num 2 'D', 2), (.num 3 'B', 2), (.num 4 'B', 2),
   (.num 5 'C', 2), (.sym "east", 2), (.sym "red", 2)]

/-- A hand of 6 distinct pairs plus 2 distinct singles. -/
def sixPairHand : HandMap :=
  [(.num 1 'D', 2), (.num 2 'D', 2), (.num 3 'B', 2), (.num 4 'B', 2),
   (.num 5 'C', 2), (.sym "east", 2), (.sym "red", 1), (.sym "green", 1)]

/-- An `ALL PAIRS` template. -/
def allPairsPattern : Pattern :=
  ⟨"ALL PAIRS", 1, 1, "ap", "ap", "all pairs", 25, "medium", false, []⟩

theorem claim8_all_pairs_witness :
    allPairsPattern.Section = "ALL PAIRS" ∧
    scoreOf sevenPairHand allPairsPattern = 14 ∧
    scoreOf sixPairHand allPairsPattern = 12 := by
  refine ⟨rfl, ?_, ?_⟩
  · rw [claim8_all_pairs sevenPairHand allPairsPattern rfl]; decide
  · rw [claim8_all_pairs sixPairHand allPairsPattern rfl]; decide

/-! ## C9 — scoring is pure in its explicit inputs -/

theorem scoreGroupStep_fst (st : HandMap × HandMap × Nat) (g : Group) :
    (scoreGroupStep st g).1 = st.1 := by
  unfold scoreGroupStep
  dsimp only
  repeat' split
  all_goals rfl

theorem foldl_scoreGroupStep_fst (gs : List Group)
    (st : HandMap × HandMap × Nat) :
    (gs.foldl scoreGroupStep st).1 = st.1 := by
  induction gs generalizing st with
  | nil => rfl
  | cons g rest ih => rw [List.foldl_cons, ih, scoreGroupStep_fst]

/-- C9: scoring leaves the caller's counter unchanged (tile consumption
happens only on the internal working copy), so a second call with the
resulting counter returns the same score. -/
theorem claim9_pure (h : HandMap) (p : Pattern) :
    (score_hand_for_pattern h p).2 = h ∧
    score_hand_for_pattern ((score_hand_for_pattern h p).2) p =
      score_hand_for_pattern h p := by
  have hcall : (score_hand_for_pattern h p).2 = h := by
    unfold score_hand_for_pattern
    by_cases hs : p.Section = "ALL PAIRS"
    · simp [hs]
    · simp [hs, foldl_scoreGroupStep_fst]
  exact ⟨hcall, by rw [hcall]⟩

/-! ## C10 — the "too many suits" error branch is unreachable -/

/-- C10: at most three distinct primary suit roles can ever be counted, so
`generate_suit_combinations` is the same function with its
`num_suits_needed > 3` error branch erased: the `ERROR` sentinel assignment
is never returned. -/
theorem sortedUniqueRoles_le_three (d : List (String × String)) :
    (sortedUniqueRoles d).length ≤ 3 := by
  have := List.length_filter_le
    (fun r => decide (r ∈ d.map (·.2))) primaryRoleNames
  simpa [sortedUniqueRoles] using this

theorem claim10_error_unreachable (groups : List Group) :
    (sortedUniqueRoles (suitRolesDict groups)).length ≤ 3 ∧
    generate_suit_combinations groups =
      (let d := suitRolesDict groups
       if d = [] then [[]]
       else
         let roles := sortedUniqueRoles d
         let k := roles.length
         if k = 0 then [[]]
         else
           (permsTake (SUITS.map (·.1)) k).map fun combo =>
             buildAssignment d (roles.zip combo)) := by
  have hle := sortedUniqueRoles_le_three (suitRolesDict groups)
  refine ⟨hle, ?_⟩
  unfold generate_suit_combinations
  by_cases hd : suitRolesDict groups = []
  · simp [hd]
  · have h3 : ¬ 3 < (sortedUniqueRoles (suitRolesDict groups)).length :=
      Nat.not_lt.mpr hle
    simp [hd, h3]

/-! ## C2 — what the generation-success flag actually guarantees -/

theorem accumulateGroups_spec (groups : List Group)
    (sa va : List (String × String)) :
    (accumulateGroups groups sa va).1 =
      groups.flatMap (fun g => (generate_exact_tiles_for_group g sa va).1) ∧
    ((accumulateGroups groups sa va).2.2 = true ↔
      ∀ g ∈ groups, (generate_exact_tiles_for_group g sa va).2 = true) := by
  have main : ∀ (gs : List Group) (acc : List Tile × List JokerRule × Bool),
      (gs.foldl (fun acc g =>
          let r := generate_exact_tiles_for_group g sa va
          (acc.1 ++ r.1,
           acc.2.1 ++ [⟨g.gname, g.Jokers_Allowed, r.1⟩],
           acc.2.2 && r.2)) acc).1 =
        acc.1 ++ gs.flatMap (fun g => (generate_exact_tiles_for_group g sa va).1) ∧
      ((gs.foldl (fun acc g =>
          let r := generate_exact_tiles_for_group g sa va
          (acc.1 ++ r.1,
           acc.2.1 ++ [⟨g.gname, g.Jokers_Allowed, r.1⟩],
           acc.2.2 && r.2)) acc).2.2 =
        (acc.2.2 && gs.all (fun g => (generate_exact_tiles_for_group g sa va).2))) := by
    intro gs
    induction gs with
    | nil => intro acc; simp
    | cons g rest ih =>
      intro acc
      rcases ih (acc.1 ++ (generate_exact_tiles_for_group g sa va).1,
        acc.2.1 ++ [⟨g.gname, g.Jokers_Allowed, (generate_exact_tiles_for_group g sa va).1⟩],
        acc.2.2 && (generate_exact_tiles_for_group g sa va).2) with ⟨h1, h2⟩
      constructor
      · rw [List.foldl_cons]
        rw [h1]
        simp
      · rw [List.foldl_cons]
        rw [h2]
        simp [Bool.and_assoc]
  rcases main groups ([], [], true) with ⟨h1, h2⟩
  constructor
  · simpa [accumulateGroups] using h1
  · rw [show (accumulateGroups groups sa va).2.2 =
      (true && groups.all (fun g => (generate_exact_tiles_for_group g sa va).2)) from h2]
    simp

theorem gexact_success_groupSuccess (g : Group) (sa va : List (String × String))
    (h : (generate_exact_tiles_for_group g sa va).2 = true) :
    groupSuccess (generate_exact_tiles_for_group g sa va).1 = true := by
  unfold generate_exact_tiles_for_group at h ⊢
  dsimp only at h ⊢
  repeat' split at h
  all_goals simp_all

/-- C2 (amended): a hand is marked generation-successful only if every group
resolved to a nonempty tile list free of `UNKNOWN` sentinels; the flag does
not check the 14-tile total. -/
theorem claim2_success_flag (p : Pattern) (sa va : List (String × String))
    (hsucc : (generate_complete_hand_with_assignments p sa va).generation_success
      = true) :
    (∀ t ∈ (generate_complete_hand_with_assignments p sa va).required_tiles,
        tileHasUnknown t = false) ∧
    ∀ g ∈ p.Groups, (generate_exact_tiles_for_group g sa va).1 ≠ [] := by
  have hflag : (accumulateGroups p.Groups sa va).2.2 = true := hsucc
  rcases accumulateGroups_spec p.Groups sa va with ⟨htiles, hiff⟩
  have hall := hiff.mp hflag
  constructor
  · intro t ht
    have ht' : t ∈ (accumulateGroups p.Groups sa va).1 := ht
    rw [htiles] at ht'
    rcases List.mem_flatMap.mp ht' with ⟨g, hg, htg⟩
    have hgs := gexact_success_groupSuccess g sa va (hall g hg)
    unfold groupSuccess at hgs
    rw [Bool.and_eq_true] at hgs
    have := List.all_eq_true.mp hgs.2 t htg
    simpa using this
  · intro g hg
    have hgs := gexact_success_groupSuccess g sa va (hall g hg)
    unfold groupSuccess at hgs
    rw [Bool.and_eq_true] at hgs
    intro hnil
    have h1 := hgs.1
    rw [hnil] at h1
    simp at h1

/-- A template with a lone pung of bare digit 1: three tiles, never 14. -/
def threeTilePattern : Pattern :=
  ⟨"T2", 4, 7, "t2", "111", "three ones", 25, "easy", false,
   [⟨"g1", "pung", .pstr "1", "any", true, none⟩]⟩

/-- C2 counterexample: the enumerator marks every hand of `threeTilePattern`
generation-successful although each holds 3 tiles, not 14 — the flag does
not include the claimed 14-tile condition. -/
theorem claim2_counterexample :
    (generate_all_complete_hands [threeTilePattern]).map
        (fun h => (h.generation_success, h.total_tiles)) =
      [(true, 3), (true, 3), (true, 3)] := by
  decide

theorem claim2_success_flag_witness :
    (generate_complete_hand_with_assignments threeTilePattern
        [("g1", "dots")] []).generation_success = true ∧
    ∀ t ∈ (generate_complete_hand_with_assignments threeTilePattern
        [("g1", "dots")] []).required_tiles, tileHasUnknown t = false := by
  refine ⟨by decide, ?_⟩
  exact (claim2_success_flag threeTilePattern [("g1", "dots")] [] (by decide)).1

/-! ## C3 — the value-assignment key mismatch -/

/-- A template with one pung group named `g1` whose constraint descriptor is
the multi-valued literal list `"2,5"`. -/
def multiValPattern : Pattern :=
  ⟨"V", 9, 9, "v", "222/555", "pung of 2 or 5", 25, "easy", false,
   [⟨"g1", "pung", .pstr "2,5", "any", true, none⟩]⟩

/-- C3: the expander keys each assignment by the group *name* (`"g1"`),
while the resolver looks up the *descriptor* (`"2,5"`), so the substitution
never fires: resolving under the `"5"` choice still yields both literals,
the pung takes the first (`2`), and the hands generated for the `"2"` and
`"5"` choices have identical tile lists — contradicting the generator's own
docstring ("One variation with all 2s / one with all 5s"). -/
theorem claim3_key_mismatch :
    generate_constraint_value_combinations multiValPattern =
      [[("g1", "2")], [("g1", "5")]] ∧
    expand_constraint_values_with_assignment (.pstr "2,5") (some "dots")
        [("g1", "5")] = [.num 2 'D', .num 5 'D'] ∧
    (generate_complete_hand_with_assignments multiValPattern
        [("g1", "dots")] [("g1", "5")]).required_tiles =
      [.num 2 'D', .num 2 'D', .num 2 'D'] ∧
    (generate_complete_hand_with_assignments multiValPattern
        [("g1", "dots")] [("g1", "5")]).required_tiles =
      (generate_complete_hand_with_assignments multiValPattern
        [("g1", "dots")] [("g1", "2")]).required_tiles := by
  refine ⟨?_, ?_, ?_, ?_⟩ <;> decide

/-! ## C4 — the greedy pung/pair/kong suit loop -/

/-- C4 (amended): for a pung, pair, or kong group with a bare-digit literal,
one scoring step searches the fixed suit order `['D', 'C', 'B']` for the
first suit whose (value, suit) tile count in the working multiset reaches
the required count (pair=2, pung=3, kong=4), adds that count to the score,
subtracts it from the working multiset, and stops at that first match; with
no matching suit the state is unchanged.  (A quint group is not handled by
this branch — see the counterexample.) -/
theorem claim4_greedy (g : Group) (caller temp : HandMap) (score : Nat)
    (cv : String)
    (hty : g.Constraint_Type = "pung" ∨ g.Constraint_Type = "kong" ∨
      g.Constraint_Type = "pair")
    (hcv : g.Constraint_Values = .pstr cv) (hdig : pyIsDigit cv = true) :
    (needOf "pair" = 2 ∧ needOf "pung" = 3 ∧ needOf "kong" = 4) ∧
    scoreGroupStep (caller, temp, score) g =
      (match scorerSuits.find? (fun s => decide (needOf g.Constraint_Type ≤
          handGet temp (Tile.num (pyStrToNat cv) s))) with
       | some s =>
         (caller, dictSub temp (Tile.num (pyStrToNat cv) s)
            (needOf g.Constraint_Type), score + needOf g.Constraint_Type)
       | none => (caller, temp, score)) := by
  refine ⟨⟨rfl, rfl, rfl⟩, ?_⟩
  unfold scoreGroupStep
  dsimp only
  rw [if_pos hty, hcv]
  dsimp only
  rw [if_pos hdig, consumeFirstSuit_eq_find]
  cases hf : scorerSuits.find? (fun s => decide (needOf g.Constraint_Type ≤
      handGet temp (Tile.num (pyStrToNat cv) s))) with
  | none => simp [hf]
  | some s => simp [hf]

/-- A pair group with the bare-digit literal 7. -/
def pairSevenGroup : Group := ⟨"p7", "pair", .pstr "7", "none", true, none⟩

theorem claim4_greedy_witness :
    scoreGroupStep ([], [(Tile.num 7 'D', 1), (Tile.num 7 'C', 2)], 0)
        pairSevenGroup =
      ([], [(Tile.num 7 'D', 1), (Tile.num 7 'C', 0)], 2) := by
  rw [(claim4_greedy pairSevenGroup [] [(Tile.num 7 'D', 1), (Tile.num 7 'C', 2)]
    0 "7" (Or.inr (Or.inr rfl)) rfl (by decide)).2]
  decide

/-- A template with a lone quint group of bare digit 1. -/
def quintPattern : Pattern :=
  ⟨"Q", 3, 3, "q", "11111", "quint of 1", 40, "hard", false,
   [⟨"g1", "quint", .pstr "1", "any", true, none⟩]⟩

/-- C4 counterexample: the observed multiset holds five copies of `(1, 'D')`
— at least the quint's required count of 5 — yet scoring the quint template
yields 0, not 5: the scorer's branch covers only `pung`/`kong`/`pair` and a
quint group with a bare-digit literal is never matched. -/
theorem claim4_counterexample :
    handGet [(Tile.num 1 'D', 5)] (Tile.num 1 'D') = 5 ∧
    scoreOf [(Tile.num 1 'D', 5)] quintPattern = 0 := by
  decide

/-! ## C5 — ranking ties -/

theorem find_best_append (h : HandMap) (ps : List Pattern) (p : Pattern) :
    find_best_pattern h (ps ++ [p]) =
      rankStep h (find_best_pattern h ps) p := by
  unfold find_best_pattern
  rw [List.foldl_append]
  rfl

theorem find_best_invariant (h : HandMap) (ps : List Pattern) :
    (∀ p ∈ ps, (scoreOf h p : Int) ≤ (find_best_pattern h ps).2) ∧
    (ps = [] → find_best_pattern h ps = ([], -1)) ∧
    (0 < (find_best_pattern h ps).2 →
      (find_best_pattern h ps).1 =
        (ps.filter fun p =>
            decide ((scoreOf h p : Int) = (find_best_pattern h ps).2)).map
          fun p => mkEntry (scoreOf h p) p) ∧
    ((find_best_pattern h ps).2 = 0 →
      (find_best_pattern h ps).1 =
        (ps.take 1).map fun p => mkEntry (scoreOf h p) p) ∧
    (ps ≠ [] → 0 ≤ (find_best_pattern h ps).2) := by
  induction ps using List.reverseRecOn with
  | nil =>
    refine ⟨by simp, fun _ => rfl, ?_, ?_, by simp⟩
    · intro hpos
      simp [find_best_pattern] at hpos
    · intro h0
      simp [find_best_pattern] at h0
  | append_singleton ps p ih =>
    obtain ⟨ihMax, ihNil, ihPos, ihZero, ihNonneg⟩ := ih
    rw [find_best_append]
    set r := find_best_pattern h ps with hr
    set s := scoreOf h p with hs
    rcases List.eq_nil_or_concat' ps with hps | ⟨l, a, hps⟩
    · -- previous prefix empty: the first pattern always replaces the initial -1
      subst hps
      have hrdef : r = ([], -1) := ihNil rfl
      have hgt : (s : Int) > r.2 := by
        rw [hrdef]
        show (-1 : Int) < (s : Int)
        omega
      rw [show rankStep h r p = ([mkEntry s p], (s : Int)) by
        unfold rankStep; rw [if_pos hgt]]
      refine ⟨?_, by intro hemp; simp at hemp, ?_, ?_, ?_⟩
      · intro q hq
        simp at hq
        subst hq
        simp
      · intro _
        simp [hs]
      · intro _
        simp [hs]
      · intro _
        show (0 : Int) ≤ (s : Int)
        omega
    · -- previous prefix nonempty
      have hne : ps ≠ [] := by
        rw [hps]
        simp
      have hr0 : 0 ≤ r.2 := ihNonneg hne
      by_cases hgt : (s : Int) > r.2
      · rw [show rankStep h r p = ([mkEntry s p], (s : Int)) by
          unfold rankStep; rw [if_pos hgt]]
        have hspos : 0 < s := by omega
        refine ⟨?_, by intro hemp; simp at hemp, ?_, ?_, ?_⟩
        · intro q hq
          rcases List.mem_append.mp hq with hq | hq
          · have := ihMax q hq
            omega
          · simp at hq
            subst hq
            simp
        · intro _
          have hnil : (ps.filter fun q =>
              decide ((scoreOf h q : Int) = (s : Int))) = [] := by
            apply List.filter_eq_nil_iff.mpr
            intro q hq
            have := ihMax q hq
            simp
            omega
          rw [List.filter_append, hnil]
          simp
        · intro h0
          exfalso
          omega
        · intro _
          show (0 : Int) ≤ (s : Int)
          omega
      · by_cases heq : (s : Int) = r.2 ∧ 0 < s
        · rw [show rankStep h r p = (r.1 ++ [mkEntry s p], r.2) by
            unfold rankStep; rw [if_neg hgt, if_pos heq]]
          obtain ⟨heqv, hspos⟩ := heq
          have hrpos : 0 < r.2 := by omega
          refine ⟨?_, by intro hemp; simp at hemp, ?_, ?_, ?_⟩
          · intro q hq
            rcases List.mem_append.mp hq with hq | hq
            · exact ihMax q hq
            · simp at hq
              subst hq
              omega
          · intro _
            rw [List.filter_append, ihPos hrpos]
            have : (([p] : List Pattern).filter fun q =>
                decide ((scoreOf h q : Int) = r.2)) = [p] := by
              simp [heqv]
            rw [this]
            simp
          · intro h0
            exfalso
            omega
          · intro _
            omega
        · rw [show rankStep h r p = r by
            unfold rankStep; rw [if_neg hgt, if_neg heq]]
          have hle : (s : Int) ≤ r.2 := by omega
          have hneq : (s : Int) = r.2 → s = 0 := by
            intro he
            by_contra hs0
            exact heq ⟨he, Nat.pos_of_ne_zero hs0⟩
          refine ⟨?_, by intro hemp; simp at hemp, ?_, ?_, ?_⟩
          · intro q hq
            rcases List.mem_append.mp hq with hq | hq
            · exact ihMax q hq
            · simp at hq
              subst hq
              exact hle
          · intro hrpos
            have hpfalse : ¬ ((scoreOf h p : Int) = r.2) := by
              intro he
              have := hneq he
              omega
            rw [List.filter_append]
            have : (([p] : List Pattern).filter fun q =>
                decide ((scoreOf h q : Int) = r.2)) = [] := by
              simp [hpfalse]
            rw [this]
            simp [ihPos hrpos]
          · intro h0
            have htake : (ps ++ [p]).take 1 = ps.take 1 := by
              cases ps with
              | nil => exact absurd rfl hne
              | cons a l => simp
            rw [htake]
            exact ihZero h0
          · intro _
            exact hr0

/-- C5 (amended): the ranking list is exactly the templates achieving the
maximal score when that maximum is positive (all positive ties appear, in
order), and when the maximum is 0 it contains exactly the first template —
even if later templates also score 0. -/
theorem claim5_ranking (h : HandMap) (ps : List Pattern) :
    (∀ p ∈ ps, (scoreOf h p : Int) ≤ (find_best_pattern h ps).2) ∧
    (0 < (find_best_pattern h ps).2 →
      (find_best_pattern h ps).1 =
        (ps.filter fun p =>
            decide ((scoreOf h p : Int) = (find_best_pattern h ps).2)).map
          fun p => mkEntry (scoreOf h p) p) ∧
    ((find_best_pattern h ps).2 = 0 →
      (find_best_pattern h ps).1 =
        (ps.take 1).map fun p => mkEntry (scoreOf h p) p) := by
  obtain ⟨h1, -, h3, h4, -⟩ := find_best_invariant h ps
  exact ⟨h1, h3, h4⟩

/-- Two group-free, non-`ALL PAIRS` templates: both score 0 on any hand. -/
def zeroPatternA : Pattern :=
  ⟨"ZA", 1, 11, "za", "za", "zero A", 25, "easy", false, []⟩

def zeroPatternB : Pattern :=
  ⟨"ZB", 2, 12, "zb", "zb", "zero B", 25, "easy", false, []⟩

/-- C5 counterexample: with two templates both scoring 0 against the empty
hand, the returned candidate list contains the first 0-scoring template even
though it is not the unique maximum (the second ties at 0, yet is absent). -/
theorem claim5_counterexample :
    scoreOf [] zeroPatternA = 0 ∧ scoreOf [] zeroPatternB = 0 ∧
    find_best_pattern [] [zeroPatternA, zeroPatternB] =
      ([mkEntry 0 zeroPatternA], 0) := by
  refine ⟨rfl, rfl, ?_⟩
  decide

theorem claim5_ranking_witness :
    (find_best_pattern [(Tile.num 1 'D', 3)] [threeTilePattern]).1 =
      [mkEntry 3 threeTilePattern] := by
  have hmax : (find_best_pattern [(Tile.num 1 'D', 3)] [threeTilePattern]).2
      = 3 := by decide
  have h := (claim5_ranking [(Tile.num 1 'D', 3)] [threeTilePattern]).2.1
    (by rw [hmax]; decide)
  rw [h, hmax]
  decide

/-! ## C6 — suit-assignment permutation counts and distinctness -/

/-- `3! / (3 - k)!` for the possible role counts `k ≤ 3`. -/
def expectedPermCount : Nat → Nat
  | 0 => 1
  | 1 => 3
  | _ => 6

theorem mem_alSet_keys {α β : Type} [DecidableEq α] (d : List (α × β))
    (k x : α) (v : β) :
    x ∈ (alSet d k v).map (·.1) ↔ x ∈ d.map (·.1) ∨ x = k := by
  induction d with
  | nil => simp [alSet]
  | cons e rest ih =>
    by_cases he : e.1 = k
    · subst he
      simp [alSet]
      tauto
    · simp [alSet, he, ih]
      tauto

theorem alSet_keys_nodup {α β : Type} [DecidableEq α] (d : List (α × β))
    (k : α) (v : β) (h : (d.map (·.1)).Nodup) :
    ((alSet d k v).map (·.1)).Nodup := by
  induction d with
  | nil => simp [alSet]
  | cons e rest ih =>
    obtain ⟨a, b⟩ := e
    by_cases he : a = k
    · subst he
      simpa [alSet] using h
    · have h' := List.nodup_cons.mp (show (a :: rest.map (·.1)).Nodup from h)
      have goalEq : ((alSet ((a, b) :: rest) k v).map (·.1)) =
          a :: (alSet rest k v).map (·.1) := by
        simp [alSet, he]
      rw [goalEq]
      refine List.nodup_cons.mpr ⟨?_, ih h'.2⟩
      intro hx
      rcases (mem_alSet_keys rest k a v).mp hx with hx | hx
      · exact h'.1 hx
      · exact he hx

theorem suitRolesDict_keys_nodup (groups : List Group) :
    ((suitRolesDict groups).map (·.1)).Nodup := by
  have main : ∀ (gs : List Group) (d : List (String × String)),
      (d.map (·.1)).Nodup →
      ((gs.foldl (fun d g =>
          let role := g.Suit_Role
          if role ∈ primaryRoleNames then alSet d g.gname role
          else if startsSameAs role then alSet d g.gname role
          else d) d).map (·.1)).Nodup := by
    intro gs
    induction gs with
    | nil => intro d hd; exact hd
    | cons g rest ih =>
      intro d hd
      rw [List.foldl_cons]
      apply ih
      dsimp only
      by_cases h1 : g.Suit_Role ∈ primaryRoleNames
      · rw [if_pos h1]
        exact alSet_keys_nodup d _ _ hd
      · rw [if_neg h1]
        by_cases h2 : startsSameAs g.Suit_Role = true
        · rw [if_pos h2]
          exact alSet_keys_nodup d _ _ hd
        · rw [if_neg h2]
          exact hd
  exact main groups [] (by simp)

theorem assignStep_preserve (rts a : List (String × String))
    (nr : String × String) (n : String) (h : nr.1 ≠ n) :
    alGet? (assignStep rts a nr) n = alGet? a n := by
  unfold assignStep
  cases alGet? rts nr.2 with
  | some s => exact alGet?_alSet_ne a nr.1 n s h
  | none =>
    dsimp only
    split
    · cases alGet? a (sameAsRef nr.2) with
      | some s => exact alGet?_alSet_ne a nr.1 n s h
      | none => exact alGet?_alSet_ne a nr.1 n _ h
    · rfl

theorem foldl_assignStep_preserve (items : List (String × String))
    (rts a : List (String × String)) (n : String)
    (h : ∀ nr ∈ items, nr.1 ≠ n) :
    alGet? (items.foldl (assignStep rts) a) n = alGet? a n := by
  induction items generalizing a with
  | nil => rfl
  | cons nr rest ih =>
    rw [List.foldl_cons, ih _ (fun x hx => h x (.tail _ hx)),
      assignStep_preserve rts a nr n (h nr (.head _))]

theorem buildAssignment_get (d rts : List (String × String))
    (hnd : (d.map (·.1)).Nodup) (n r s : String)
    (hget : alGet? d n = some r) (hrts : alGet? rts r = some s) :
    alGet? (buildAssignment d rts) n = some s := by
  have main : ∀ (d' a : List (String × String)),
      (d'.map (·.1)).Nodup → alGet? d' n = some r →
      alGet? (d'.foldl (assignStep rts) a) n = some s := by
    intro d'
    induction d' with
    | nil => intro a _ hg; simp [alGet?] at hg
    | cons e rest ih =>
      intro a hnodup hg
      obtain ⟨k, v⟩ := e
      have hnd' := List.nodup_cons.mp
        (show (k :: rest.map (·.1)).Nodup from hnodup)
      by_cases hk : k = n
      · subst hk
        have hvr : v = r := by
          have hh : alGet? ((k, v) :: rest) k = some v := by simp [alGet?]
          rw [hh] at hg
          exact Option.some.inj hg
        subst hvr
        rw [List.foldl_cons]
        have hpres : ∀ nr ∈ rest, nr.1 ≠ k := by
          intro nr hmem hcon
          apply hnd'.1
          rw [← hcon]
          exact List.mem_map_of_mem (·.1) hmem
        rw [foldl_assignStep_preserve rest rts _ k hpres]
        show alGet? (assignStep rts a (k, v)) k = some s
        unfold assignStep
        dsimp only
        rw [hrts]
        exact alGet?_alSet_self a k s
      · have hg' : alGet? rest n = some r := by
          simpa [alGet?, hk] using hg
        rw [List.foldl_cons]
        exact ih _ hnd'.2 hg'
  exact main d [] hnd hget

theorem permsTake_sound : ∀ (k : Nat) (l : List String), l.Nodup →
    ∀ c ∈ permsTake l k, c.length = k ∧ c.Nodup ∧ ∀ x ∈ c, x ∈ l := by
  intro k
  induction k with
  | zero =>
    intro l _ c hc
    simp [permsTake] at hc
    subst hc
    simp
  | succ k ih =>
    intro l hl c hc
    simp only [permsTake, List.mem_flatMap, List.mem_map] at hc
    obtain ⟨x, hx, c', hc', rfl⟩ := hc
    obtain ⟨hlen, hnd, hsub⟩ := ih (l.erase x) (hl.erase x) c' hc'
    refine ⟨by simp [hlen], ?_, ?_⟩
    · refine List.nodup_cons.mpr ⟨?_, hnd⟩
      intro hxc
      exact hl.not_mem_erase (hsub x hxc)
    · intro y hy
      rcases List.mem_cons.mp hy with rfl | hy
      · exact hx
      · exact List.mem_of_mem_erase (hsub y hy)

theorem alGet?_zip_some : ∀ (roles combo : List String) (r : String),
    r ∈ roles → combo.length = roles.length →
    ∃ s, alGet? (roles.zip combo) r = some s := by
  intro roles
  induction roles with
  | nil => intro combo r hr; simp at hr
  | cons x rs ih =>
    intro combo r hr hlen
    cases combo with
    | nil => simp at hlen
    | cons y cs =>
      by_cases hx : x = r
      · refine ⟨y, ?_⟩
        rw [List.zip_cons_cons]
        simp [alGet?, hx]
      · rcases List.mem_cons.mp hr with rfl | hr
        · exact absurd rfl hx
        · simp at hlen
          obtain ⟨s, hs⟩ := ih cs r hr hlen
          refine ⟨s, ?_⟩
          rw [List.zip_cons_cons]
          have hstep : alGet? ((x, y) :: rs.zip cs) r = alGet? (rs.zip cs) r := by
            simp [alGet?, hx]
          rw [hstep, hs]

theorem alGet?_zip_index : ∀ (roles combo : List String) (r s : String),
    alGet? (roles.zip combo) r = some s →
    ∃ (i : Nat) (h1 : i < roles.length) (h2 : i < combo.length),
      roles.get ⟨i, h1⟩ = r ∧ combo.get ⟨i, h2⟩ = s := by
  intro roles
  induction roles with
  | nil => intro combo r s h; simp [alGet?] at h
  | cons x rs ih =>
    intro combo r s h
    cases combo with
    | nil => simp [alGet?] at h
    | cons y cs =>
      rw [List.zip_cons_cons] at h
      by_cases hx : x = r
      · simp [alGet?, hx] at h
        subst hx
        subst h
        exact ⟨0, by simp, by simp, rfl, rfl⟩
      · simp [alGet?, hx] at h
        obtain ⟨i, h1, h2, hr, hs⟩ := ih cs r s h
        exact ⟨i + 1, by simpa using Nat.succ_lt_succ h1,
          by simpa using Nat.succ_lt_succ h2, by simpa using hr,
          by simpa using hs⟩

/-- C6: with `k` distinct primary suit roles among any/second/third, the
suit-assignment expander returns exactly `3!/(3-k)!` assignments
(`k=0` gives the one empty assignment, `k=1` gives 3, `k=2` and `k=3` give
6), and every returned assignment maps groups carrying distinct primary
roles to distinct suits. -/
theorem claim6_suit_permutations (groups : List Group) :
    (generate_suit_combinations groups).length =
      expectedPermCount (sortedUniqueRoles (suitRolesDict groups)).length ∧
    ((sortedUniqueRoles (suitRolesDict groups)).length = 0 →
      generate_suit_combinations groups = [[]]) ∧
    (∀ a ∈ generate_suit_combinations groups, ∀ n1 n2 r1 r2,
      alGet? (suitRolesDict groups) n1 = some r1 →
      alGet? (suitRolesDict groups) n2 = some r2 →
      r1 ∈ primaryRoleNames → r2 ∈ primaryRoleNames → r1 ≠ r2 →
      ∃ s1 s2, alGet? a n1 = some s1 ∧ alGet? a n2 = some s2 ∧ s1 ≠ s2) := by
  have hle := sortedUniqueRoles_le_three (suitRolesDict groups)
  have hEq : generate_suit_combinations groups =
      (if suitRolesDict groups = [] then [[]]
       else if (sortedUniqueRoles (suitRolesDict groups)).length = 0 then [[]]
       else if 3 < (sortedUniqueRoles (suitRolesDict groups)).length then
         [[("ERROR", "Too many suits needed: " ++
            toString (sortedUniqueRoles (suitRolesDict groups)).length)]]
       else
         (permsTake (SUITS.map (·.1))
             (sortedUniqueRoles (suitRolesDict groups)).length).map fun combo =>
           buildAssignment (suitRolesDict groups)
             ((sortedUniqueRoles (suitRolesDict groups)).zip combo)) := rfl
  by_cases hd : suitRolesDict groups = []
  · have hroles : sortedUniqueRoles (suitRolesDict groups) = [] := by
      rw [hd]
      rfl
    rw [hEq, if_pos hd]
    refine ⟨by rw [hroles]; rfl, fun _ => rfl, ?_⟩
    intro a ha n1 n2 r1 r2 hg1
    rw [hd] at hg1
    simp [alGet?] at hg1
  · by_cases hk0 : (sortedUniqueRoles (suitRolesDict groups)).length = 0
    · rw [hEq, if_neg hd, if_pos hk0]
      refine ⟨by rw [hk0]; rfl, fun _ => rfl, ?_⟩
      intro a ha n1 n2 r1 r2 hg1 hg2 hp1 hp2 hne
      exfalso
      have hmem1 : r1 ∈ (suitRolesDict groups).map (·.2) :=
        List.mem_map_of_mem (·.2) (alGet?_mem _ _ _ hg1)
      have : r1 ∈ sortedUniqueRoles (suitRolesDict groups) :=
        List.mem_filter.mpr ⟨hp1, by simpa using hmem1⟩
      rw [List.length_eq_zero.mp hk0] at this
      simp at this
    · have hk3 : ¬ 3 < (sortedUniqueRoles (suitRolesDict groups)).length :=
        Nat.not_lt.mpr hle
      rw [hEq, if_neg hd, if_neg hk0, if_neg hk3]
      have hsuitsnd : (SUITS.map (·.1)).Nodup := by decide
      constructor
      · rw [List.length_map]
        have h1 : 1 ≤ (sortedUniqueRoles (suitRolesDict groups)).length :=
          Nat.one_le_iff_ne_zero.mpr hk0
        interval_cases h :
            (sortedUniqueRoles (suitRolesDict groups)).length <;> decide
      · refine ⟨fun h0 => absurd h0 hk0, ?_⟩
        intro a ha n1 n2 r1 r2 hg1 hg2 hp1 hp2 hne
        rcases List.mem_map.mp ha with ⟨combo, hcombo, rfl⟩
        obtain ⟨hclen, hcnd, -⟩ :=
          permsTake_sound _ (SUITS.map (·.1)) hsuitsnd combo hcombo
        have hroleslen : combo.length =
            (sortedUniqueRoles (suitRolesDict groups)).length := hclen
        have hmem1 : r1 ∈ sortedUniqueRoles (suitRolesDict groups) :=
          List.mem_filter.mpr ⟨hp1, by
            simpa using List.mem_map_of_mem (·.2) (alGet?_mem _ _ _ hg1)⟩
        have hmem2 : r2 ∈ sortedUniqueRoles (suitRolesDict groups) :=
          List.mem_filter.mpr ⟨hp2, by
            simpa using List.mem_map_of_mem (·.2) (alGet?_mem _ _ _ hg2)⟩
        obtain ⟨s1, hs1⟩ := alGet?_zip_some _ combo r1 hmem1 hroleslen
        obtain ⟨s2, hs2⟩ := alGet?_zip_some _ combo r2 hmem2 hroleslen
        refine ⟨s1, s2,
          buildAssignment_get _ _ (suitRolesDict_keys_nodup groups) _ _ _ hg1 hs1,
          buildAssignment_get _ _ (suitRolesDict_keys_nodup groups) _ _ _ hg2 hs2,
          ?_⟩
        obtain ⟨i, hi1, hi2, hir, his⟩ := alGet?_zip_index _ combo r1 s1 hs1
        obtain ⟨j, hj1, hj2, hjr, hjs⟩ := alGet?_zip_index _ combo r2 s2 hs2
        intro hss
        apply hne
        have hij : (⟨i, hi2⟩ : Fin combo.length) = ⟨j, hj2⟩ :=
          hcnd.get_inj_iff.mp (by rw [his, hjs, hss])
        have : i = j := by simpa using hij
        subst this
        rw [← hir, ← hjr]

theorem claim6_suit_permutations_witness :
    (generate_suit_combinations
        [⟨"g1", "pung", .pstr "1", "any", true, none⟩,
         ⟨"g2", "pung", .pstr "2", "second", true, none⟩]).length = 6 ∧
    (∃ s1 s2, alGet?
        ((generate_suit_combinations
          [⟨"g1", "pung", .pstr "1", "any", true, none⟩,
           ⟨"g2", "pung", .pstr "2", "second", true, none⟩]).headD []) "g1" = some s1 ∧
      alGet?
        ((generate_suit_combinations
          [⟨"g1", "pung", .pstr "1", "any", true, none⟩,
           ⟨"g2", "pung", .pstr "2", "second", true, none⟩]).headD []) "g2" = some s2 ∧
      s1 ≠ s2) := by
  constructor
  · rw [(claim6_suit_permutations
      [⟨"g1", "pung", .pstr "1", "any", true, none⟩,
       ⟨"g2", "pung", .pstr "2", "second", true, none⟩]).1]
    decide
  · exact (claim6_suit_permutations
      [⟨"g1", "pung", .pstr "1", "any", true, none⟩,
       ⟨"g2", "pung", .pstr "2", "second", true, none⟩]).2.2
      ((generate_suit_combinations
        [⟨"g1", "pung", .pstr "1", "any", true, none⟩,
         ⟨"g2", "pung", .pstr "2", "second", true, none⟩]).headD [])
      (by decide) "g1" "g2" "any" "second" (by decide) (by decide)
      (by decide) (by decide) (by decide)

/-! ## C1 — round-trip: scoring a generated hand against its template

The nine bare-digit characters and the extraction of a group's resolved
digit value and suit letter, used to relate the generator's tiles to the
scorer's probes. -/

def digitChars : List Char := ['1', '2', '3', '4', '5', '6', '7', '8', '9']

/-- The numeric value of a group's single-digit literal (as the scorer's
`int(...)` sees it). -/
def digitOfGroup (g : Group) : Int :=
  match g.Constraint_Values with
  | .pstr s => ((s.data.headD '0').toNat - 48 : Nat)
  | _ => 0

/-- The suit letter a group's tiles carry under a suit assignment. -/
def suitOfGroup (g : Group) (sa : List (String × String)) : Char :=
  suitLetterOf ((alGet? sa g.gname).getD "")

/-- The one concrete number tile a bare-digit pair/pung/kong group resolves
to under a suit assignment. -/
def tileOfGroup (g : Group) (sa : List (String × String)) : Tile :=
  .num (digitOfGroup g) (suitOfGroup g sa)

/-- The fragment of templates on which the round-trip property holds: a
pair/pung/kong group with a bare single-digit (1-9) literal and a valid
assigned suit. -/
def RoundTripGroup (g : Group) (sa : List (String × String)) : Prop :=
  (g.Constraint_Type = "pair" ∨ g.Constraint_Type = "pung" ∨
    g.Constraint_Type = "kong") ∧
  (∃ c, c ∈ digitChars ∧ g.Constraint_Values = .pstr (String.mk [c])) ∧
  (∃ sn, sn ∈ SUITS.map (·.1) ∧ alGet? sa g.gname = some sn)

theorem expand_single_digit :
    ∀ c ∈ digitChars, ∀ sn ∈ SUITS.map (·.1),
    expand_constraint_values_with_assignment (.pstr (String.mk [c]))
        (some sn) [] =
      [Tile.num ((c.toNat - 48 : Nat) : Int) (suitLetterOf sn)] := by
  intro c hc sn hsn
  fin_cases hc <;> fin_cases hsn <;> decide

theorem pyIsDigit_digitChar : ∀ c ∈ digitChars,
    pyIsDigit (String.mk [c]) = true := by decide

theorem pyStrToNat_digitChar : ∀ c ∈ digitChars,
    pyStrToNat (String.mk [c]) = c.toNat - 48 := by decide

theorem suitLetterOf_cases : ∀ sn ∈ SUITS.map (·.1),
    suitLetterOf sn = 'D' ∨ suitLetterOf sn = 'B' ∨
    suitLetterOf sn = 'C' := by decide

theorem needOf_ge_two (ct : String)
    (h : ct = "pair" ∨ ct = "pung" ∨ ct = "kong") : 2 ≤ needOf ct := by
  rcases h with h | h | h <;> rw [h] <;> decide

/-- Under the round-trip hypotheses a group resolves to exactly
`needOf type` copies of its one concrete tile, successfully. -/
theorem gexact_roundtrip (g : Group) (sa : List (String × String))
    (h : RoundTripGroup g sa) :
    generate_exact_tiles_for_group g sa [] =
      (List.replicate (needOf g.Constraint_Type) (tileOfGroup g sa), true) := by
  obtain ⟨hty, ⟨c, hc, hcv⟩, ⟨sn, hsn, hget⟩⟩ := h
  have hexp := expand_single_digit c hc sn hsn
  have hdig : digitOfGroup g = ((c.toNat - 48 : Nat) : Int) := by
    unfold digitOfGroup
    rw [hcv]
    rfl
  have hsuit : suitOfGroup g sa = suitLetterOf sn := by
    unfold suitOfGroup
    rw [hget]
    rfl
  have htile : tileOfGroup g sa =
      Tile.num ((c.toNat - 48 : Nat) : Int) (suitLetterOf sn) := by
    unfold tileOfGroup
    rw [hdig, hsuit]
  have hbase : expand_constraint_values_with_assignment g.Constraint_Values
      (alGet? sa g.gname) [] = [tileOfGroup g sa] := by
    rw [hcv, hget, hexp, htile]
  have hflower : ¬ g.Constraint_Values = .pstr "flower" := by
    rw [hcv]
    intro hcon
    have := congrArg (fun v => match v with
      | PyVal.pstr s => s.data
      | _ => []) hcon
    simp at this
  rcases hty with hty | hty | hty
  · have h1 : ¬ g.Constraint_Type = "single" := by rw [hty]; decide
    unfold generate_exact_tiles_for_group
    rw [if_neg h1, if_pos hty, hbase, hty]
    simp [groupSuccess, tileHasUnknown, tileOfGroup, List.replicate, needOf]
  · have h1 : ¬ g.Constraint_Type = "single" := by rw [hty]; decide
    have h2 : ¬ g.Constraint_Type = "pair" := by rw [hty]; decide
    unfold generate_exact_tiles_for_group
    rw [if_neg h1, if_neg h2, if_pos hty, hbase, hty]
    simp [groupSuccess, tileHasUnknown, tileOfGroup, List.replicate, needOf]
  · have h1 : ¬ g.Constraint_Type = "single" := by rw [hty]; decide
    have h2 : ¬ g.Constraint_Type = "pair" := by rw [hty]; decide
    have h3 : ¬ g.Constraint_Type = "pung" := by rw [hty]; decide
    unfold generate_exact_tiles_for_group
    rw [if_neg h1, if_neg h2, if_neg h3, if_pos hty, if_neg hflower, hbase, hty]
    simp [groupSuccess, tileHasUnknown, tileOfGroup, List.replicate, needOf]

theorem flatMap_congr_mem {α β : Type} (l : List α) (f g : α → List β)
    (h : ∀ x ∈ l, f x = g x) : l.flatMap f = l.flatMap g := by
  induction l with
  | nil => rfl
  | cons a rest ih =>
    rw [List.flatMap_cons, List.flatMap_cons, h a (.head _),
      ih fun x hx => h x (.tail _ hx)]

theorem rt_tiles_length (l : List Group) (sa : List (String × String)) :
    (l.flatMap fun g =>
        List.replicate (needOf g.Constraint_Type) (tileOfGroup g sa)).length =
      (l.map fun g => needOf g.Constraint_Type).sum := by
  induction l with
  | nil => rfl
  | cons g rest ih => simp [List.flatMap_cons, ih]

theorem rt_tiles_count (l : List Group) (sa : List (String × String))
    (t : Tile) :
    ((l.flatMap fun g =>
        List.replicate (needOf g.Constraint_Type) (tileOfGroup g sa)).count t) =
      (l.map fun g =>
        if tileOfGroup g sa = t then needOf g.Constraint_Type else 0).sum := by
  induction l with
  | nil => rfl
  | cons g rest ih =>
    rw [List.flatMap_cons, List.count_append, ih, List.map_cons, List.sum_cons]
    congr 1
    by_cases h : tileOfGroup g sa = t
    · simp [h, List.count_replicate]
    · have h' : ¬ t = tileOfGroup g sa := fun hc => h hc.symm
      simp [h, h', List.count_replicate]

theorem insertDesc_perm (g : Group) (l : List Group) :
    (insertDesc g l).Perm (g :: l) := by
  induction l with
  | nil => exact List.Perm.refl _
  | cons h t ih =>
    unfold insertDesc
    by_cases hw : typeWeight h.Constraint_Type ≤ typeWeight g.Constraint_Type
    · rw [if_pos hw]
    · rw [if_neg hw]
      exact (ih.cons h).trans (List.Perm.swap g h t)

theorem sortGroupsDesc_perm (l : List Group) :
    (sortGroupsDesc l).Perm l := by
  induction l with
  | nil => exact List.Perm.refl _
  | cons g rest ih =>
    unfold sortGroupsDesc
    rw [List.foldr_cons]
    exact (insertDesc_perm g _).trans (ih.cons g)

theorem insertDesc_sorted (g : Group) (l : List Group)
    (h : l.Pairwise fun a b =>
      typeWeight b.Constraint_Type ≤ typeWeight a.Constraint_Type) :
    (insertDesc g l).Pairwise fun a b =>
      typeWeight b.Constraint_Type ≤ typeWeight a.Constraint_Type := by
  induction l with
  | nil => simp [insertDesc]
  | cons x t ih =>
    rw [List.pairwise_cons] at h
    unfold insertDesc
    by_cases hw : typeWeight x.Constraint_Type ≤ typeWeight g.Constraint_Type
    · rw [if_pos hw]
      refine List.pairwise_cons.mpr ⟨?_, List.pairwise_cons.mpr h⟩
      intro b hb
      rcases List.mem_cons.mp hb with rfl | hb
      · exact hw
      · exact le_trans (h.1 b hb) hw
    · rw [if_neg hw]
      refine List.pairwise_cons.mpr ⟨?_, ih h.2⟩
      intro b hb
      have hb' : b ∈ g :: t := (insertDesc_perm g t).subset hb
      rcases List.mem_cons.mp hb' with rfl | hb'
      · exact le_of_lt (lt_of_not_le hw)
      · exact h.1 b hb'

/-- `sorted(..., reverse=True)` orders the groups by non-increasing weight. -/
theorem sortGroupsDesc_sorted (l : List Group) :
    (sortGroupsDesc l).Pairwise fun a b =>
      typeWeight b.Constraint_Type ≤ typeWeight a.Constraint_Type := by
  induction l with
  | nil => simp [sortGroupsDesc]
  | cons g rest ih =>
    unfold sortGroupsDesc at ih ⊢
    rw [List.foldr_cons]
    exact insertDesc_sorted g _ ih

/-- On pair/pung/kong groups the scorer's sort weight coincides with the
required tile count, so the sorted order is also non-increasing in need. -/
theorem weight_eq_need (ct : String)
    (h : ct = "pair" ∨ ct = "pung" ∨ ct = "kong") :
    typeWeight ct = needOf ct := by
  rcases h with h | h | h <;> rw [h] <;> decide

/-! The pile bookkeeping of the round-trip proof: the working multiset is
described by a list of (digit, suit, count) triples at pairwise-distinct
(digit, suit) tiles.  Because the greedy scorer may satisfy a group from an
equally-sized pile of the same digit at a *different* group's suit, the
triples are matched to the remaining groups only up to their (digit, count)
projection. -/

/-- `List.find?_some` with the predicate explicit, so that unification picks
the intended predicate. -/
theorem find?_some_char (P : Char → Bool) (l : List Char) (a : Char)
    (h : l.find? P = some a) : P a = true :=
  List.find?_some h

theorem triple_sum_zero (M : List (Int × Char × Nat)) (d : Int) (s : Char)
    (h : ∀ x ∈ M, ¬ (x.1 = d ∧ x.2.1 = s)) :
    (M.map fun x => if x.1 = d ∧ x.2.1 = s then x.2.2 else 0).sum = 0 := by
  apply List.sum_eq_zero
  intro v hv
  rcases List.mem_map.mp hv with ⟨x, hx, rfl⟩
  rw [if_neg (h x hx)]

theorem triple_sum_single (M : List (Int × Char × Nat))
    (hpw : M.Pairwise fun a b => ¬ (a.1 = b.1 ∧ a.2.1 = b.2.1))
    (d : Int) (s : Char) (x : Int × Char × Nat) (hx : x ∈ M)
    (hxm : x.1 = d ∧ x.2.1 = s) :
    (M.map fun y => if y.1 = d ∧ y.2.1 = s then y.2.2 else 0).sum = x.2.2 := by
  obtain ⟨pre, post, rfl⟩ := List.append_of_mem hx
  rw [List.pairwise_append] at hpw
  rw [List.map_append, List.sum_append, List.map_cons, List.sum_cons,
    if_pos hxm]
  have hpre : (pre.map fun y =>
      if y.1 = d ∧ y.2.1 = s then y.2.2 else 0).sum = 0 := by
    apply triple_sum_zero
    intro y hy hym
    exact hpw.2.2 y hy x (.head _)
      ⟨hym.1.trans hxm.1.symm, hym.2.trans hxm.2.symm⟩
  have hpost : (post.map fun y =>
      if y.1 = d ∧ y.2.1 = s then y.2.2 else 0).sum = 0 := by
    apply triple_sum_zero
    intro y hy hym
    exact (List.pairwise_cons.mp hpw.2.1).1 y hy
      ⟨hxm.1.trans hym.1.symm, hxm.2.trans hym.2.symm⟩
  omega

/-- One scoring step on a round-trip group: whichever suit the first-match
search returns, the step consumes the group's required count of the
(digit, suit) tile there and adds that count to the score. -/
theorem rt_step (g : Group) (sa : List (String × String))
    (caller temp : HandMap) (score : Nat) (h : RoundTripGroup g sa)
    (sfound : Char)
    (hfind : scorerSuits.find? (fun s => decide (needOf g.Constraint_Type ≤
      handGet temp (Tile.num (digitOfGroup g) s))) = some sfound) :
    scoreGroupStep (caller, temp, score) g =
      (caller, dictSub temp (Tile.num (digitOfGroup g) sfound)
        (needOf g.Constraint_Type), score + needOf g.Constraint_Type) := by
  obtain ⟨hty, ⟨c, hc, hcv⟩, ⟨sn, hsn, hget⟩⟩ := h
  have htyS : g.Constraint_Type = "pung" ∨ g.Constraint_Type = "kong" ∨
      g.Constraint_Type = "pair" := by tauto
  have hdig : digitOfGroup g = ((c.toNat - 48 : Nat) : Int) := by
    unfold digitOfGroup
    rw [hcv]
    rfl
  unfold scoreGroupStep
  dsimp only
  rw [if_pos htyS, hcv]
  dsimp only
  rw [if_pos (pyIsDigit_digitChar c hc), consumeFirstSuit_eq_find,
    pyStrToNat_digitChar c hc, ← hdig, hfind]

/-- The scoring loop over round-trip groups: when the working multiset's
piles realise the remaining groups' (digit, need) multiset at
pairwise-distinct (digit, suit) tiles with suits among D/C/B, and the groups
are processed in non-increasing need order, every group is matched by a pile
of exactly its own size, so the loop adds the full remaining tile count. -/
theorem rt_loop (sa : List (String × String)) :
    ∀ (L : List Group) (M : List (Int × Char × Nat))
      (caller temp : HandMap) (score : Nat),
    (∀ g ∈ L, RoundTripGroup g sa) →
    L.Pairwise (fun a b =>
      needOf b.Constraint_Type ≤ needOf a.Constraint_Type) →
    (M.map fun x => (x.1, x.2.2)).Perm
      (L.map fun g => (digitOfGroup g, needOf g.Constraint_Type)) →
    M.Pairwise (fun a b => ¬ (a.1 = b.1 ∧ a.2.1 = b.2.1)) →
    (∀ x ∈ M, x.2.1 = 'D' ∨ x.2.1 = 'C' ∨ x.2.1 = 'B') →
    (∀ (d : Int) (s : Char), handGet temp (Tile.num d s) =
      (M.map fun x => if x.1 = d ∧ x.2.1 = s then x.2.2 else 0).sum) →
    (L.foldl scoreGroupStep (caller, temp, score)).2.2 =
      score + (L.map fun g => needOf g.Constraint_Type).sum := by
  intro L
  induction L with
  | nil => intro M caller temp score _ _ _ _ _ _; simp
  | cons g rest ih =>
    intro M caller temp score hall hsorted hproj hpwM hsuits htemp
    have hgRT := hall g (.head _)
    have hn2 : 2 ≤ needOf g.Constraint_Type := needOf_ge_two _ hgRT.1
    -- every pile size is at most the head group's need
    have hneedle : ∀ x ∈ M, x.2.2 ≤ needOf g.Constraint_Type := by
      intro x hx
      have hmem : ((x.1, x.2.2) : Int × Nat) ∈
          ((g :: rest).map fun g' =>
            (digitOfGroup g', needOf g'.Constraint_Type)) :=
        hproj.subset (List.mem_map_of_mem _ hx)
      rcases List.mem_map.mp hmem with ⟨g', hg', heq⟩
      have h2 : needOf g'.Constraint_Type = x.2.2 := congrArg Prod.snd heq
      rcases List.mem_cons.mp hg' with rfl | hg'
      · rw [← h2]
      · rw [← h2]
        exact (List.pairwise_cons.mp hsorted).1 g' hg'
    -- some pile carries the head group's own (digit, need)
    obtain ⟨x0, hx0M, hx0d, hx0n⟩ : ∃ x ∈ M,
        x.1 = digitOfGroup g ∧ x.2.2 = needOf g.Constraint_Type := by
      have hmem : ((digitOfGroup g, needOf g.Constraint_Type) : Int × Nat) ∈
          M.map fun x => (x.1, x.2.2) :=
        hproj.mem_iff.mpr (List.mem_map_of_mem _ (.head _))
      rcases List.mem_map.mp hmem with ⟨x, hx, heq⟩
      exact ⟨x, hx, congrArg Prod.fst heq, congrArg Prod.snd heq⟩
    have hx0pile : handGet temp (Tile.num (digitOfGroup g) x0.2.1) =
        needOf g.Constraint_Type := by
      rw [htemp, triple_sum_single M hpwM _ _ x0 hx0M ⟨hx0d, rfl⟩, hx0n]
    -- the suit search succeeds
    obtain ⟨sf, hfind⟩ : ∃ sf,
        scorerSuits.find? (fun s => decide (needOf g.Constraint_Type ≤
          handGet temp (Tile.num (digitOfGroup g) s))) = some sf := by
      cases hfe : scorerSuits.find? (fun s =>
          decide (needOf g.Constraint_Type ≤
            handGet temp (Tile.num (digitOfGroup g) s))) with
      | some s => exact ⟨s, rfl⟩
      | none =>
        exfalso
        have hforall := List.find?_eq_none.mp hfe
        have hx0s : x0.2.1 ∈ scorerSuits := by
          rcases hsuits x0 hx0M with h | h | h <;> rw [h] <;> decide
        apply hforall x0.2.1 hx0s
        show decide (needOf g.Constraint_Type ≤
          handGet temp (Tile.num (digitOfGroup g) x0.2.1)) = true
        rw [hx0pile]
        simp
    have hsfge : needOf g.Constraint_Type ≤
        handGet temp (Tile.num (digitOfGroup g) sf) :=
      of_decide_eq_true (find?_some_char _ _ _ hfind)
    -- the pile found is a unique triple of exactly the head's need
    obtain ⟨xf, hxfM, hxfd, hxfs⟩ : ∃ x ∈ M,
        x.1 = digitOfGroup g ∧ x.2.1 = sf := by
      by_contra hno
      push_neg at hno
      have hzero : handGet temp (Tile.num (digitOfGroup g) sf) = 0 := by
        rw [htemp]
        apply triple_sum_zero
        intro y hy hym
        exact hno y hy hym.1 hym.2
      omega
    have hxfpile : handGet temp (Tile.num (digitOfGroup g) sf) = xf.2.2 := by
      rw [htemp]
      exact triple_sum_single M hpwM _ _ xf hxfM ⟨hxfd, hxfs⟩
    have hxfn : xf.2.2 = needOf g.Constraint_Type :=
      le_antisymm (hneedle xf hxfM) (by rw [← hxfpile]; exact hsfge)
    -- take the step and restore the invariant on the remaining piles
    rw [List.foldl_cons, rt_step g sa caller temp score hgRT sf hfind]
    obtain ⟨pre, post, hM⟩ := List.append_of_mem hxfM
    subst hM
    have hpwApp := List.pairwise_append.mp hpwM
    have hpwM' : (pre ++ post).Pairwise fun a b =>
        ¬ (a.1 = b.1 ∧ a.2.1 = b.2.1) := by
      rw [List.pairwise_append]
      exact ⟨hpwApp.1, (List.pairwise_cons.mp hpwApp.2.1).2,
        fun a ha b hb => hpwApp.2.2 a ha b (.tail _ hb)⟩
    have hproj' : ((pre ++ post).map fun x => (x.1, x.2.2)).Perm
        (rest.map fun g' => (digitOfGroup g', needOf g'.Constraint_Type)) := by
      have hp1 : (((pre ++ xf :: post)).map fun x => (x.1, x.2.2)).Perm
          ((xf.1, xf.2.2) :: (pre ++ post).map fun x => (x.1, x.2.2)) := by
        rw [List.map_append, List.map_cons, List.map_append]
        exact List.perm_middle
      have hp2 := hp1.symm.trans hproj
      rw [List.map_cons] at hp2
      have hhead : ((xf.1, xf.2.2) : Int × Nat) =
          (digitOfGroup g, needOf g.Constraint_Type) := by
        rw [hxfd, hxfn]
      rw [hhead] at hp2
      exact hp2.cons_inv
    have hsuits' : ∀ x ∈ pre ++ post,
        x.2.1 = 'D' ∨ x.2.1 = 'C' ∨ x.2.1 = 'B' := by
      intro x hx
      rcases List.mem_append.mp hx with hx | hx
      · exact hsuits x (List.mem_append.mpr (Or.inl hx))
      · exact hsuits x (List.mem_append.mpr (Or.inr (.tail _ hx)))
    have htemp' : ∀ (d' : Int) (s' : Char),
        handGet (dictSub temp (Tile.num (digitOfGroup g) sf)
            (needOf g.Constraint_Type)) (Tile.num d' s') =
          ((pre ++ post).map fun x =>
            if x.1 = d' ∧ x.2.1 = s' then x.2.2 else 0).sum := by
      intro d' s'
      rw [handGet_dictSub]
      by_cases hts : Tile.num d' s' = Tile.num (digitOfGroup g) sf
      · simp only [Tile.num.injEq] at hts
        obtain ⟨hd', hs'⟩ := hts
        subst hd'
        subst hs'
        rw [if_pos rfl, hxfpile, hxfn, Nat.sub_self]
        symm
        apply triple_sum_zero
        intro y hy hym
        rcases List.mem_append.mp hy with hy | hy
        · exact hpwApp.2.2 y hy xf (.head _)
            ⟨hym.1.trans hxfd.symm, hym.2.trans hxfs.symm⟩
        · exact (List.pairwise_cons.mp hpwApp.2.1).1 y hy
            ⟨hxfd.trans hym.1.symm, hxfs.trans hym.2.symm⟩
      · rw [if_neg hts, htemp d' s', List.map_append, List.sum_append,
          List.map_cons, List.sum_cons, List.map_append, List.sum_append]
        have hxfno : ¬ (xf.1 = d' ∧ xf.2.1 = s') := by
          intro hcon
          apply hts
          rw [← hcon.1, ← hcon.2, hxfd, hxfs]
        rw [if_neg hxfno]
        omega
    rw [ih (pre ++ post) caller _ (score + needOf g.Constraint_Type)
      (fun g' hg' => hall g' (.tail _ hg'))
      (List.pairwise_cons.mp hsorted).2 hproj' hpwM' hsuits' htemp']
    rw [List.map_cons, List.sum_cons]
    omega

/-- C1 (amended): for a template outside the `ALL PAIRS` section (whose
scoring bypasses group matching) whose groups are all pair/pung/kong groups
with bare single-digit (1-9) literals and a suit assignment giving every
group a valid suit name, where no two groups resolve to the same
(literal, suit) tile, if the hand generated with the empty value assignment
totals 14 tiles then it is generation-successful and scoring its tile
multiset against the same template yields exactly 14. -/
theorem claim1_roundtrip (p : Pattern) (sa : List (String × String))
    (hall : ∀ g ∈ p.Groups, RoundTripGroup g sa)
    (hpw : p.Groups.Pairwise fun g1 g2 =>
      tileOfGroup g1 sa ≠ tileOfGroup g2 sa)
    (hsec : p.Section ≠ "ALL PAIRS")
    (h14 : (generate_complete_hand_with_assignments p sa []).total_tiles = 14) :
    (generate_complete_hand_with_assignments p sa []).generation_success
      = true ∧
    scoreOf (generate_complete_hand_with_assignments p sa []).tile_counts p
      = 14 := by
  obtain ⟨htiles, hsucc_iff⟩ := accumulateGroups_spec p.Groups sa []
  have hgex : ∀ g ∈ p.Groups, generate_exact_tiles_for_group g sa [] =
      (List.replicate (needOf g.Constraint_Type) (tileOfGroup g sa), true) :=
    fun g hg => gexact_roundtrip g sa (hall g hg)
  have hsucc : (accumulateGroups p.Groups sa []).2.2 = true :=
    hsucc_iff.mpr fun g hg => by rw [hgex g hg]
  have htl : (accumulateGroups p.Groups sa []).1 =
      p.Groups.flatMap fun g =>
        List.replicate (needOf g.Constraint_Type) (tileOfGroup g sa) := by
    rw [htiles]
    exact flatMap_congr_mem _ _ _ fun g hg => by rw [hgex g hg]
  have hsum14 : (p.Groups.map fun g => needOf g.Constraint_Type).sum = 14 := by
    have hh : (generate_complete_hand_with_assignments p sa []).total_tiles =
        (accumulateGroups p.Groups sa []).1.length := rfl
    rw [hh, htl, rt_tiles_length] at h14
    exact h14
  have hperm := sortGroupsDesc_perm p.Groups
  have hscore : scoreOf
      (toCounter (accumulateGroups p.Groups sa []).1) p = 14 := by
    unfold scoreOf score_hand_for_pattern
    rw [if_neg hsec]
    dsimp only
    have hallL : ∀ g ∈ sortGroupsDesc p.Groups, RoundTripGroup g sa :=
      fun g hg => hall g (hperm.subset hg)
    have hpwL : (sortGroupsDesc p.Groups).Pairwise fun g1 g2 =>
        tileOfGroup g1 sa ≠ tileOfGroup g2 sa :=
      ((hperm.pairwise_iff fun hab => hab.symm).mpr hpw)
    have hsorted : (sortGroupsDesc p.Groups).Pairwise fun a b =>
        needOf b.Constraint_Type ≤ needOf a.Constraint_Type := by
      refine (sortGroupsDesc_sorted p.Groups).imp_of_mem ?_
      intro a b ha hb hw
      rw [← weight_eq_need _ (hallL a ha).1, ← weight_eq_need _ (hallL b hb).1]
      exact hw
    -- the initial pile list: one triple per group, at its own tile
    have hproj : (((sortGroupsDesc p.Groups).map fun g =>
        (digitOfGroup g, suitOfGroup g sa, needOf g.Constraint_Type)).map
          fun x => (x.1, x.2.2)).Perm
        ((sortGroupsDesc p.Groups).map fun g =>
          (digitOfGroup g, needOf g.Constraint_Type)) := by
      rw [List.map_map]
      exact List.Perm.refl _
    have hpwM : ((sortGroupsDesc p.Groups).map fun g =>
        (digitOfGroup g, suitOfGroup g sa, needOf g.Constraint_Type)).Pairwise
        fun a b => ¬ (a.1 = b.1 ∧ a.2.1 = b.2.1) := by
      apply List.pairwise_map.mpr
      refine hpwL.imp ?_
      intro g1 g2 hne hcon
      apply hne
      obtain ⟨h1, h2⟩ := hcon
      dsimp only at h1 h2
      unfold tileOfGroup
      rw [h1, h2]
    have hsuits : ∀ x ∈ ((sortGroupsDesc p.Groups).map fun g =>
        (digitOfGroup g, suitOfGroup g sa, needOf g.Constraint_Type)),
        x.2.1 = 'D' ∨ x.2.1 = 'C' ∨ x.2.1 = 'B' := by
      intro x hx
      rcases List.mem_map.mp hx with ⟨g, hg, rfl⟩
      obtain ⟨-, -, sn, hsn, hget⟩ := hallL g hg
      have hs : suitOfGroup g sa = suitLetterOf sn := by
        unfold suitOfGroup
        rw [hget]
        rfl
      rcases suitLetterOf_cases sn hsn with h | h | h <;>
        rw [show (digitOfGroup g, suitOfGroup g sa,
          needOf g.Constraint_Type).2.1 = suitOfGroup g sa from rfl, hs, h] <;>
        tauto
    have htempinv : ∀ (d : Int) (s : Char),
        handGet (toCounter (accumulateGroups p.Groups sa []).1)
            (Tile.num d s) =
          (((sortGroupsDesc p.Groups).map fun g =>
            (digitOfGroup g, suitOfGroup g sa, needOf g.Constraint_Type)).map
              fun x => if x.1 = d ∧ x.2.1 = s then x.2.2 else 0).sum := by
      intro d s
      rw [handGet_toCounter, htl, rt_tiles_count, List.map_map,
        ← ((hperm.map fun g =>
          if tileOfGroup g sa = Tile.num d s then
            needOf g.Constraint_Type else 0).sum_eq)]
      apply congrArg List.sum
      apply List.map_congr_left
      intro g hg
      show (if tileOfGroup g sa = Tile.num d s then
          needOf g.Constraint_Type else 0) =
        (if digitOfGroup g = d ∧ suitOfGroup g sa = s then
          needOf g.Constraint_Type else 0)
      by_cases h : digitOfGroup g = d ∧ suitOfGroup g sa = s
      · rw [if_pos h, if_pos (by unfold tileOfGroup; rw [h.1, h.2])]
      · rw [if_neg h, if_neg (by
          unfold tileOfGroup
          intro hcon
          simp only [Tile.num.injEq] at hcon
          exact h hcon)]
    rw [rt_loop sa (sortGroupsDesc p.Groups)
      ((sortGroupsDesc p.Groups).map fun g =>
        (digitOfGroup g, suitOfGroup g sa, needOf g.Constraint_Type))
      _ _ 0 hallL hsorted hproj hpwM hsuits htempinv,
      Nat.zero_add, (hperm.map _).sum_eq]
    exact hsum14
  exact ⟨hsucc, hscore⟩

/-- A winds-only template: two pungs and two kongs of the four distinct
winds (14 tiles, no shared literal/suit combination anywhere). -/
def windsPattern : Pattern :=
  ⟨"W", 5, 5, "w", "EEE SSS WWWW NNNN", "winds", 25, "medium", false,
   [⟨"g1", "pung", .pstr "east", "none", true, none⟩,
    ⟨"g2", "pung", .pstr "south", "none", true, none⟩,
    ⟨"g3", "kong", .pstr "west", "none", true, none⟩,
    ⟨"g4", "kong", .pstr "north", "none", true, none⟩]⟩

/-- C1 counterexample: the winds template generates successfully (14 tiles,
no two groups competing for any literal/suit combination), yet scoring the
generated hand against the same template yields 0, not 14 — the scorer has
no matching logic for wind/dragon/flower literals. -/
theorem claim1_counterexample :
    (generate_complete_hand_with_assignments windsPattern [] []).generation_success
      = true ∧
    (generate_complete_hand_with_assignments windsPattern [] []).total_tiles
      = 14 ∧
    windsPattern.Groups.Pairwise (fun g1 g2 =>
      g1.Constraint_Values ≠ g2.Constraint_Values) ∧
    scoreOf (generate_complete_hand_with_assignments windsPattern [] []).tile_counts
      windsPattern = 0 := by
  refine ⟨by decide, by decide, by decide, by decide⟩

/-- A template inside the round-trip fragment, with two kongs sharing the
literal 1 and two pungs sharing the literal 2 in different suits
(4+4+3+3 = 14 tiles; the four resolved tiles 1D, 1B, 2D, 2B are distinct,
the literals are not). -/
def rtPattern : Pattern :=
  ⟨"RT", 6, 6, "rt", "1111 1111 222 222", "round trip", 25, "easy", false,
   [⟨"g1", "kong", .pstr "1", "any", true, none⟩,
    ⟨"g2", "kong", .pstr "1", "second", true, none⟩,
    ⟨"g3", "pung", .pstr "2", "any", true, none⟩,
    ⟨"g4", "pung", .pstr "2", "second", true, none⟩]⟩

def rtSA : List (String × String) :=
  [("g1", "dots"), ("g2", "bams"), ("g3", "dots"), ("g4", "bams")]

theorem claim1_roundtrip_witness :
    (generate_complete_hand_with_assignments rtPattern rtSA []).generation_success
      = true ∧
    scoreOf (generate_complete_hand_with_assignments rtPattern rtSA []).tile_counts
      rtPattern = 14 :=
  claim1_roundtrip rtPattern rtSA
    (by
      intro g hg
      fin_cases hg
      · exact ⟨Or.inr (Or.inr rfl), ⟨'1', by decide, rfl⟩,
          ⟨"dots", by decide, rfl⟩⟩
      · exact ⟨Or.inr (Or.inr rfl), ⟨'1', by decide, rfl⟩,
          ⟨"bams", by decide, rfl⟩⟩
      · exact ⟨Or.inr (Or.inl rfl), ⟨'2', by decide, rfl⟩,
          ⟨"dots", by decide, rfl⟩⟩
      · exact ⟨Or.inr (Or.inl rfl), ⟨'2', by decide, rfl⟩,
          ⟨"bams", by decide, rfl⟩⟩)
    (by decide) (by decide) (by decide)

end AMJ
